import Mathlib

/-!
# Joystick.c : the macro sequencer

A shallow embedding of the tick-driven automaton of `src/Joystick.c`
(`GetNextReport` and the four script tables it replays), followed by the
properties proved about it.

Conventions of the embedding.

* The C globals `state`, `bufindex`, `duration_count`, `portsval`, `feed_time`
  and the two output ports written by the function are the fields of `State`;
  one call of `GetNextReport` is a function from the state before the call to
  the report it writes and the state after the call.
* A C `int` is an integer (`Int`); `++` and `--` are exact (C leaves signed
  overflow undefined, and no counter of a run comes anywhere near it). The one
  implicit conversion in the function, in the comparison of `duration_count`
  with a `uint16_t` duration, is made explicit (`toUnsigned`).
* Reading a table outside its bounds has no defined result: `GetNextReport`
  returns `none` there.
* The constants and the report type of `Joystick.h` are not part of the file;
  the constants are the fields of the parameter `JoystickH`.
-/

namespace Joystick

/-- Control symbols of a script step (`Buttons_t`, lines 24-38). -/
inductive Buttons_t where
  | UP | DOWN | LEFT | RIGHT | X | Y | A | B | L | R | PLUS | NOTHING | TRIGGERS
  deriving DecidableEq, Repr

/-- One script step (`command`, lines 40-43); `duration` is a `uint16_t`. -/
structure command where
  button : Buttons_t
  duration : Nat
  deriving DecidableEq, Repr

/-- Script `sync_controller` (lines 47-55). -/
def sync_controller : List command :=
  [ ⟨.NOTHING, 250⟩, ⟨.TRIGGERS, 5⟩, ⟨.NOTHING, 150⟩, ⟨.TRIGGERS, 5⟩,
    ⟨.NOTHING, 150⟩, ⟨.A, 5⟩, ⟨.NOTHING, 250⟩ ]

/-- Script `buy_item` (lines 57-86). -/
def buy_item : List command :=
  [ ⟨.A, 5⟩, ⟨.NOTHING, 300⟩, ⟨.A, 5⟩, ⟨.NOTHING, 300⟩, ⟨.A, 5⟩, ⟨.NOTHING, 300⟩,
    ⟨.A, 5⟩, ⟨.NOTHING, 300⟩, ⟨.A, 5⟩, ⟨.NOTHING, 300⟩, ⟨.LEFT, 5⟩, ⟨.NOTHING, 300⟩,
    ⟨.A, 5⟩, ⟨.NOTHING, 300⟩, ⟨.B, 5⟩, ⟨.NOTHING, 300⟩, ⟨.B, 5⟩, ⟨.NOTHING, 300⟩,
    ⟨.PLUS, 5⟩, ⟨.NOTHING, 300⟩, ⟨.A, 5⟩, ⟨.NOTHING, 300⟩, ⟨.A, 5⟩, ⟨.NOTHING, 300⟩,
    ⟨.LEFT, 5⟩, ⟨.NOTHING, 300⟩, ⟨.A, 5⟩, ⟨.NOTHING, 300⟩ ]

/-- Script `feed_item` (lines 88-95). -/
def feed_item : List command :=
  [ ⟨.A, 5⟩, ⟨.NOTHING, 300⟩, ⟨.A, 5⟩, ⟨.NOTHING, 300⟩, ⟨.A, 5⟩, ⟨.NOTHING, 300⟩ ]

/-- Script `after_feed` (lines 97-106). -/
def after_feed : List command :=
  [ ⟨.B, 5⟩, ⟨.NOTHING, 300⟩, ⟨.B, 5⟩, ⟨.NOTHING, 300⟩, ⟨.B, 5⟩, ⟨.NOTHING, 300⟩,
    ⟨.B, 5⟩, ⟨.NOTHING, 300⟩ ]

/-- Phases of the automaton (`State_t`, lines 218-223). -/
inductive State_t where
  | SYNC_CONTROLLER | BUY_ITEM | FEED_ITEM | AFTER_FEED
  deriving DecidableEq, Repr

/-- Constants of `Joystick.h` used by `GetNextReport`. The header is not among
the sources, so their values are parameters of the development. -/
structure JoystickH where
  STICK_CENTER : Nat
  HAT_CENTER : Nat
  HAT_LEFT : Nat
  SWITCH_A : Nat
  SWITCH_B : Nat
  SWITCH_L : Nat
  SWITCH_R : Nat
  SWITCH_PLUS : Nat

/-- The fields of the report that `GetNextReport` writes. -/
structure USB_JoystickReport_Input_t where
  Button : Nat
  HAT : Nat
  LX : Nat
  LY : Nat
  RX : Nat
  RY : Nat
  deriving DecidableEq, Repr

/-- The globals read and written by `GetNextReport` (lines 45, 224-232) and the
two ports it writes. -/
structure State where
  state : State_t
  bufindex : Int
  duration_count : Int
  portsval : Int
  feed_time : Int
  PORTD : Int
  PORTB : Int
  deriving DecidableEq, Repr

/-- The state at power-up: the initialisers of the globals, and the ports as
`SetupHardware` leaves them (lines 139, 142). -/
def initialState : State :=
  { state := .SYNC_CONTROLLER, bufindex := 0, duration_count := 0, portsval := 0,
    feed_time := 10, PORTD := 0, PORTB := 0 }

/-- The empty report prepared at the top of `GetNextReport` (lines 238-243). -/
def emptyReport (h : JoystickH) : USB_JoystickReport_Input_t :=
  { Button := 0, HAT := h.HAT_CENTER, LX := h.STICK_CENTER, LY := h.STICK_CENTER,
    RX := h.STICK_CENTER, RY := h.STICK_CENTER }

/-- The assignments of every `case NOTHING:` (e.g. lines 260-264). -/
def setNeutral (h : JoystickH) (r : USB_JoystickReport_Input_t) :
    USB_JoystickReport_Input_t :=
  { r with LX := h.STICK_CENTER, LY := h.STICK_CENTER, RX := h.STICK_CENTER,
           RY := h.STICK_CENTER, HAT := h.HAT_CENTER }

/-- The `switch` on the symbol in phase `SYNC_CONTROLLER` (lines 251-266). -/
def switch_sync_controller (h : JoystickH) (b : Buttons_t)
    (r : USB_JoystickReport_Input_t) : USB_JoystickReport_Input_t :=
  match b with
  | .TRIGGERS => { r with Button := r.Button ||| (h.SWITCH_L ||| h.SWITCH_R) }
  | .A => { r with Button := r.Button ||| h.SWITCH_A }
  | .NOTHING => setNeutral h r
  | _ => r

/-- The `switch` on the symbol in phase `BUY_ITEM` (lines 285-310). -/
def switch_buy_item (h : JoystickH) (b : Buttons_t)
    (r : USB_JoystickReport_Input_t) : USB_JoystickReport_Input_t :=
  match b with
  | .LEFT => { r with HAT := h.HAT_LEFT }
  | .A => { r with Button := r.Button ||| h.SWITCH_A }
  | .B => { r with Button := r.Button ||| h.SWITCH_B }
  | .PLUS => { r with Button := r.Button ||| h.SWITCH_PLUS }
  | .NOTHING => setNeutral h r
  | _ => r

/-- The `switch` on the symbol in phase `FEED_ITEM` (lines 334-347). -/
def switch_feed_item (h : JoystickH) (b : Buttons_t)
    (r : USB_JoystickReport_Input_t) : USB_JoystickReport_Input_t :=
  match b with
  | .A => { r with Button := r.Button ||| h.SWITCH_A }
  | .NOTHING => setNeutral h r
  | _ => r

/-- The `switch` on the symbol in phase `AFTER_FEED` (lines 373-386). -/
def switch_after_feed (h : JoystickH) (b : Buttons_t)
    (r : USB_JoystickReport_Input_t) : USB_JoystickReport_Input_t :=
  match b with
  | .B => { r with Button := r.Button ||| h.SWITCH_B }
  | .NOTHING => setNeutral h r
  | _ => r

/-- Table read `table[i]` with an `int` index: defined inside the bounds only. -/
def readTable (table : List command) (i : Int) : Option command :=
  if 0 ≤ i then table[i.toNat]? else none

/-- Conversion of an `int` to `unsigned int`. The targets of this firmware are
8-bit AVR parts, where `int` has 16 bits; there the comparison of the `int`
`duration_count` with a `uint16_t` duration converts the `int` operand to
`unsigned int` (usual arithmetic conversions). On a counter in `0 .. 65535` the
conversion is the identity. -/
def toUnsigned (x : Int) : Int := x % 65536

/-- The value an 8-bit port holds after `PORT = portsval`. -/
def toPort (x : Int) : Int := x % 256

/-- The body shared by the four phases after the `switch`: `duration_count++`
and the step advance (e.g. lines 267-273), for the step `c` read at `bufindex`. -/
def advanceStep (c : command) (s : State) : State :=
  let duration_count := s.duration_count + 1
  if toUnsigned duration_count > (c.duration : Int) then
    { s with bufindex := s.bufindex + 1, duration_count := 0 }
  else
    { s with duration_count := duration_count }

/-- The indicator toggle `portsval = ~portsval; PORTD = portsval; PORTB = portsval`
(e.g. lines 275-277). -/
def togglePorts (s : State) : State :=
  let portsval := ~~~ s.portsval
  { s with portsval := portsval, PORTD := toPort portsval, PORTB := toPort portsval }

/-- One call of `GetNextReport` (lines 235-406): the report written and the
state left behind; `none` when the table read is out of bounds. -/
def GetNextReport (h : JoystickH) (s : State) :
    Option (USB_JoystickReport_Input_t × State) :=
  let ReportData := emptyReport h
  match s.state with
  | .SYNC_CONTROLLER =>
    match readTable sync_controller s.bufindex with
    | none => none
    | some c =>
      let ReportData := switch_sync_controller h c.button ReportData
      let s := advanceStep c s
      if s.bufindex > (sync_controller.length : Int) - 1 then
        let s := togglePorts s
        some (ReportData, { s with state := .BUY_ITEM, bufindex := 0 })
      else some (ReportData, s)
  | .BUY_ITEM =>
    match readTable buy_item s.bufindex with
    | none => none
    | some c =>
      let ReportData := switch_buy_item h c.button ReportData
      let s := advanceStep c s
      if s.bufindex > (buy_item.length : Int) - 1 then
        let s := togglePorts s
        some (ReportData, { s with state := .FEED_ITEM, bufindex := 0 })
      else some (ReportData, s)
  | .FEED_ITEM =>
    match readTable feed_item s.bufindex with
    | none => none
    | some c =>
      let ReportData := switch_feed_item h c.button ReportData
      let s := advanceStep c s
      if s.bufindex > (feed_item.length : Int) - 1 then
        let s := { s with bufindex := 0, feed_time := s.feed_time - 1 }
        if s.feed_time < 1 then
          let s := togglePorts s
          some (ReportData, { s with state := .AFTER_FEED, feed_time := 10 })
        else some (ReportData, s)
      else some (ReportData, s)
  | .AFTER_FEED =>
    match readTable after_feed s.bufindex with
    | none => none
    | some c =>
      let ReportData := switch_after_feed h c.button ReportData
      let s := advanceStep c s
      if s.bufindex > (after_feed.length : Int) - 1 then
        let s := togglePorts { s with bufindex := 0 }
        some (ReportData, { s with state := .BUY_ITEM })
      else some (ReportData, s)

/-- The state after `n` consecutive calls of `GetNextReport`. -/
def runTicks (h : JoystickH) : Nat → State → Option State
  | 0, s => some s
  | n + 1, s =>
    match GetNextReport h s with
    | none => none
    | some p => runTicks h n p.2

/-- The reports written by `n` consecutive calls of `GetNextReport`, in order. -/
def reportsOf (h : JoystickH) : Nat → State → Option (List USB_JoystickReport_Input_t)
  | 0, _ => some []
  | n + 1, s =>
    match GetNextReport h s with
    | none => none
    | some p =>
      match reportsOf h n p.2 with
      | none => none
      | some rs => some (p.1 :: rs)

/-- The report written by call number `k` (counted from 1) of a run from `s`. -/
def reportOfTick (h : JoystickH) (k : Nat) (s : State) :
    Option USB_JoystickReport_Input_t :=
  match runTicks h (k - 1) s with
  | none => none
  | some s1 =>
    match GetNextReport h s1 with
    | none => none
    | some p => some p.1

/-- Header constants of the HORI Pokken pad descriptor this firmware follows;
used to instantiate the parameter in closed examples. -/
def sampleHeader : JoystickH :=
  { STICK_CENTER := 128, HAT_CENTER := 8, HAT_LEFT := 6, SWITCH_A := 4, SWITCH_B := 2,
    SWITCH_L := 16, SWITCH_R := 32, SWITCH_PLUS := 512 }

/-! ## Vocabulary of the statements -/

/-- The script replayed in each phase. -/
def script : State_t → List command
  | .SYNC_CONTROLLER => sync_controller
  | .BUY_ITEM => buy_item
  | .FEED_ITEM => feed_item
  | .AFTER_FEED => after_feed

/-- The `switch` applied in each phase. -/
def phaseSwitch (h : JoystickH) : State_t → Buttons_t →
    USB_JoystickReport_Input_t → USB_JoystickReport_Input_t
  | .SYNC_CONTROLLER => switch_sync_controller h
  | .BUY_ITEM => switch_buy_item h
  | .FEED_ITEM => switch_feed_item h
  | .AFTER_FEED => switch_after_feed h

/-- The step index of `s` is a valid index of the script of its phase. -/
def InRange (s : State) : Prop :=
  0 ≤ s.bufindex ∧ s.bufindex < ((script s.state).length : Int)

instance (s : State) : Decidable (InRange s) := by
  unfold InRange
  exact inferInstance

/-- What each phase does once the step index has run past its script: the
bodies of the four `if (bufindex > ...)` blocks. -/
def finishPhase (s : State) : State :=
  match s.state with
  | .SYNC_CONTROLLER => { togglePorts s with state := .BUY_ITEM, bufindex := 0 }
  | .BUY_ITEM => { togglePorts s with state := .FEED_ITEM, bufindex := 0 }
  | .FEED_ITEM =>
    if s.feed_time - 1 < 1 then
      { togglePorts { s with bufindex := 0, feed_time := s.feed_time - 1 } with
        state := .AFTER_FEED, feed_time := 10 }
    else { s with bufindex := 0, feed_time := s.feed_time - 1 }
  | .AFTER_FEED => { togglePorts { s with bufindex := 0 } with state := .BUY_ITEM }

/-- The state on entry to phase `p`: step index and tick counter at zero, the
other globals as in `s`. -/
def enterPhase (p : State_t) (s : State) : State :=
  { s with state := p, bufindex := 0, duration_count := 0 }

/-- Ticks consumed by the first `i` steps of a script, a step of duration `d`
being held for `d + 1` ticks. -/
def ticksBefore (sc : List command) (i : Nat) : Nat :=
  ((sc.take i).map fun c => c.duration + 1).sum

/-- Ticks of one full traversal of a script. -/
def scriptTicks (sc : List command) : Nat :=
  (sc.map fun c => c.duration + 1).sum

/-- Sum of the durations of the first `i` steps of a script. -/
def durationsBefore (sc : List command) (i : Nat) : Nat :=
  ((sc.take i).map fun c => c.duration).sum

/-- The all-neutral report as the spec words it: both sticks at the neutral
constant, hat neutral, no button. -/
def specNeutral (h : JoystickH) : USB_JoystickReport_Input_t :=
  { Button := 0, HAT := h.HAT_CENTER, LX := h.STICK_CENTER, LY := h.STICK_CENTER,
    RX := h.STICK_CENTER, RY := h.STICK_CENTER }

/-- The symbol-to-report mapper as the spec words it (section 4.1): one mapping
for all phases. `TRIGGERS` sets the L and R bits; `A`, `B`, `PLUS` set their
bit; `LEFT` sets the hat to LEFT; `NOTHING` re-asserts neutral axes and hat;
every other symbol changes nothing. -/
def specMapper (h : JoystickH) (b : Buttons_t) (r : USB_JoystickReport_Input_t) :
    USB_JoystickReport_Input_t :=
  match b with
  | .TRIGGERS => { r with Button := r.Button ||| (h.SWITCH_L ||| h.SWITCH_R) }
  | .A => { r with Button := r.Button ||| h.SWITCH_A }
  | .B => { r with Button := r.Button ||| h.SWITCH_B }
  | .PLUS => { r with Button := r.Button ||| h.SWITCH_PLUS }
  | .LEFT => { r with HAT := h.HAT_LEFT }
  | .NOTHING => { r with LX := h.STICK_CENTER, LY := h.STICK_CENTER, RX := h.STICK_CENTER,
                         RY := h.STICK_CENTER, HAT := h.HAT_CENTER }
  | _ => r

/-- The `case` labels of the `switch` of each phase. -/
def caseLabels : State_t → List Buttons_t
  | .SYNC_CONTROLLER => [.TRIGGERS, .A, .NOTHING]
  | .BUY_ITEM => [.LEFT, .A, .B, .PLUS, .NOTHING]
  | .FEED_ITEM => [.A, .NOTHING]
  | .AFTER_FEED => [.B, .NOTHING]

/-- The tick from `s` takes the step index past the last step of the script:
the step read at `bufindex` is completed (`duration_count > duration` after the
increment) and the incremented index exceeds the last index of the script, so
that the index is reset to 0. -/
def completesScript (s : State) : Prop :=
  ∃ c, readTable (script s.state) s.bufindex = some c ∧
    toUnsigned (s.duration_count + 1) > (c.duration : Int) ∧
    s.bufindex + 1 > ((script s.state).length : Int) - 1

/-- A cycle-completion pulse on the tick from `s` to `s1`: `portsval` has been
complemented and written to both ports. -/
def pulsed (s s1 : State) : Prop :=
  s1.portsval = ~~~ s.portsval ∧ s1.PORTD = toPort (~~~ s.portsval) ∧
    s1.PORTB = toPort (~~~ s.portsval)

/-- The state before the last tick of the first traversal of `feed_item` in the
run from power-up (6040 ticks after power-up): last step, tick counter at the
duration of the step, `feed_time` still 10; the indicator has been toggled
twice since power-up. -/
def lastTickOfFirstFeed : State :=
  { state := .FEED_ITEM, bufindex := 5, duration_count := 300, portsval := 0,
    feed_time := 10, PORTD := 0, PORTB := 0 }

/-- The report sequence of a script replayed without skipping or repeating a
step: for each step in order, `duration + 1` copies of the report `f` gives for
its symbol. -/
def expandScript (f : Buttons_t → USB_JoystickReport_Input_t) :
    List command → List USB_JoystickReport_Input_t
  | [] => []
  | c :: cs => List.replicate (c.duration + 1) (f c.button) ++ expandScript f cs

/-- A script of alternating action and pause steps: each action held for
duration 5 and followed by a `NOTHING` pause of duration 300. -/
def actionPausePairs : List Buttons_t → List command
  | [] => []
  | b :: bs => ⟨b, 5⟩ :: ⟨.NOTHING, 300⟩ :: actionPausePairs bs

/-- The list `l` repeated `n` times. -/
def repeated (n : Nat) (l : List command) : List command :=
  match n with
  | 0 => []
  | k + 1 => l ++ repeated k l

/-- Number of steps of a script with duration `d`. -/
def stepsOfDuration (sc : List command) (d : Nat) : Nat :=
  (sc.filter fun c => c.duration = d).length

/-- The bounds of the sequencer state: the step index reads a step `c` of the
script of the phase, the tick counter is between 0 and the duration of that
step, and `feed_time` is between 1 and 10. -/
def WellFormed (s : State) : Prop :=
  ∃ c, readTable (script s.state) s.bufindex = some c ∧
    0 ≤ s.duration_count ∧ s.duration_count ≤ (c.duration : Int) ∧
    1 ≤ s.feed_time ∧ s.feed_time ≤ 10

/-- The globals that decide what the next ticks do: phase, step index, tick
counter and `feed_time` (everything but `portsval` and the ports). -/
def sequencerTuple (s : State) : State_t × Int × Int × Int :=
  (s.state, s.bufindex, s.duration_count, s.feed_time)

theorem readTable_natCast (table : List command) (i : Nat) :
    readTable table (i : Int) = table[i]? := by
  simp [readTable]

theorem readTable_some_iff (table : List command) (i : Int) (c : command) :
    readTable table i = some c ↔ 0 ≤ i ∧ table[i.toNat]? = some c := by
  unfold readTable
  split <;> simp_all

theorem readTable_of_inRange (s : State) (hs : InRange s) :
    ∃ c, readTable (script s.state) s.bufindex = some c := by
  obtain ⟨h0, h1⟩ := hs
  have hlt : s.bufindex.toNat < (script s.state).length := by omega
  refine ⟨(script s.state)[s.bufindex.toNat], ?_⟩
  simp [readTable, h0, List.getElem?_eq_getElem hlt]

theorem inRange_of_readTable (s : State) (c : command)
    (hc : readTable (script s.state) s.bufindex = some c) : InRange s := by
  rw [readTable_some_iff] at hc
  obtain ⟨h0, h1⟩ := hc
  have := (List.getElem?_eq_some.mp h1).1
  exact ⟨h0, by omega⟩

/-- One tick in normal form, for the step `c` read at the step index. -/
theorem GetNextReport_eq (h : JoystickH) (s : State) (c : command)
    (hc : readTable (script s.state) s.bufindex = some c) :
    GetNextReport h s = some (phaseSwitch h s.state c.button (emptyReport h),
      if (advanceStep c s).bufindex > ((script s.state).length : Int) - 1 then
        finishPhase (advanceStep c s)
      else advanceStep c s) := by
  obtain ⟨p, i, dc, pv, ft, pd, pb⟩ := s
  cases p <;> simp only [script] at hc <;>
    simp only [GetNextReport, hc, script, phaseSwitch, finishPhase, advanceStep] <;>
    repeat' split
  all_goals simp_all [togglePorts]

theorem advanceStep_state (c : command) (s : State) : (advanceStep c s).state = s.state := by
  simp only [advanceStep]
  split <;> rfl

theorem duration_le_of_mem (p : State_t) : ∀ c ∈ script p, c.duration ≤ 300 := by
  cases p <;> decide

theorem duration_le_of_read (s : State) (c : command)
    (hc : readTable (script s.state) s.bufindex = some c) : c.duration ≤ 300 := by
  rw [readTable_some_iff] at hc
  exact duration_le_of_mem s.state c (List.getElem?_mem hc.2)

/-- A tick that does not complete the step only counts. -/
theorem tick_hold (h : JoystickH) (s : State) (c : command)
    (hc : readTable (script s.state) s.bufindex = some c)
    (h0 : 0 ≤ s.duration_count) (h1 : s.duration_count < (c.duration : Int)) :
    GetNextReport h s = some (phaseSwitch h s.state c.button (emptyReport h),
      { s with duration_count := s.duration_count + 1 }) := by
  have hd := duration_le_of_read s c hc
  have hr := (inRange_of_readTable s c hc).2
  rw [GetNextReport_eq h s c hc]
  have hadv : advanceStep c s = { s with duration_count := s.duration_count + 1 } := by
    unfold advanceStep toUnsigned
    rw [if_neg (by omega)]
  rw [hadv, if_neg (by simp only; omega)]

/-- The tick that completes a step other than the last moves to the next step. -/
theorem tick_next (h : JoystickH) (s : State) (c : command)
    (hc : readTable (script s.state) s.bufindex = some c)
    (h1 : s.duration_count = (c.duration : Int))
    (h2 : s.bufindex + 1 < ((script s.state).length : Int)) :
    GetNextReport h s = some (phaseSwitch h s.state c.button (emptyReport h),
      { s with bufindex := s.bufindex + 1, duration_count := 0 }) := by
  have hd := duration_le_of_read s c hc
  rw [GetNextReport_eq h s c hc]
  have hadv : advanceStep c s = { s with bufindex := s.bufindex + 1, duration_count := 0 } := by
    unfold advanceStep toUnsigned
    rw [if_pos (by omega)]
  rw [hadv, if_neg (by simp only; omega)]

/-- The tick that completes the last step of a script runs the phase wrap-up. -/
theorem tick_last (h : JoystickH) (s : State) (c : command)
    (hc : readTable (script s.state) s.bufindex = some c)
    (h1 : s.duration_count = (c.duration : Int))
    (h2 : s.bufindex + 1 = ((script s.state).length : Int)) :
    GetNextReport h s = some (phaseSwitch h s.state c.button (emptyReport h),
      finishPhase { s with bufindex := s.bufindex + 1, duration_count := 0 }) := by
  have hd := duration_le_of_read s c hc
  rw [GetNextReport_eq h s c hc]
  have hadv : advanceStep c s = { s with bufindex := s.bufindex + 1, duration_count := 0 } := by
    unfold advanceStep toUnsigned
    rw [if_pos (by omega)]
  rw [hadv, if_pos (by simp only; omega)]

/-- Shape of the state after a tick from an in-range state: the step index
stays, moves one step forward inside the script, or the phase wrap-up runs on
the state whose step index has just left the script. -/
theorem tick_cases (h : JoystickH) (s : State) (hs : InRange s) :
    ∃ r s1, GetNextReport h s = some (r, s1) ∧
      ((s1.state = s.state ∧ s1.bufindex = s.bufindex ∧ s1.feed_time = s.feed_time ∧
          s1.portsval = s.portsval) ∨
       (s1.state = s.state ∧ s1.bufindex = s.bufindex + 1 ∧ s1.duration_count = 0 ∧
          s1.bufindex < ((script s.state).length : Int) ∧ s1.feed_time = s.feed_time ∧
          s1.portsval = s.portsval) ∨
       (s.bufindex + 1 = ((script s.state).length : Int) ∧
          s1 = finishPhase { s with bufindex := s.bufindex + 1, duration_count := 0 })) := by
  obtain ⟨c, hc⟩ := readTable_of_inRange s hs
  refine ⟨_, _, GetNextReport_eq h s c hc, ?_⟩
  simp only [advanceStep]
  obtain ⟨h0, h1⟩ := hs
  by_cases hgt : toUnsigned (s.duration_count + 1) > (c.duration : Int)
  · rw [if_pos hgt]
    by_cases hl : s.bufindex + 1 > ((script s.state).length : Int) - 1
    · rw [if_pos hl]
      exact Or.inr (Or.inr ⟨by omega, rfl⟩)
    · rw [if_neg hl]
      exact Or.inr (Or.inl ⟨rfl, rfl, rfl, by simp only; omega, rfl, rfl⟩)
  · rw [if_neg hgt, if_neg (by simp only; omega)]
    exact Or.inl ⟨rfl, rfl, rfl, rfl⟩

theorem finishPhase_state (s : State) :
    (s.state = .SYNC_CONTROLLER ∧ (finishPhase s).state = .BUY_ITEM) ∨
    (s.state = .BUY_ITEM ∧ (finishPhase s).state = .FEED_ITEM) ∨
    (s.state = .FEED_ITEM ∧
      ((finishPhase s).state = .FEED_ITEM ∨ (finishPhase s).state = .AFTER_FEED)) ∨
    (s.state = .AFTER_FEED ∧ (finishPhase s).state = .BUY_ITEM) := by
  obtain ⟨p, i, dc, pv, ft, pd, pb⟩ := s
  cases p <;> simp [finishPhase, togglePorts]
  split <;> simp

theorem finishPhase_bufindex (s : State) : (finishPhase s).bufindex = 0 := by
  obtain ⟨p, i, dc, pv, ft, pd, pb⟩ := s
  cases p <;> simp [finishPhase, togglePorts]
  split <;> simp

theorem finishPhase_duration_count (s : State) :
    (finishPhase s).duration_count = s.duration_count := by
  obtain ⟨p, i, dc, pv, ft, pd, pb⟩ := s
  cases p <;> simp [finishPhase, togglePorts]
  split <;> simp

/-! ## Tick arithmetic of a script -/

theorem ticksBefore_succ (sc : List command) (i : Nat) (c : command)
    (hc : sc[i]? = some c) : ticksBefore sc (i + 1) = ticksBefore sc i + (c.duration + 1) := by
  induction sc generalizing i with
  | nil => simp at hc
  | cons a t ih =>
    cases i with
    | zero =>
      simp only [List.getElem?_cons_zero, Option.some.injEq] at hc
      subst hc
      simp [ticksBefore]
    | succ j =>
      simp only [List.getElem?_cons_succ] at hc
      have := ih j hc
      simp only [ticksBefore, List.take_succ_cons, List.map_cons, List.sum_cons] at this ⊢
      omega

theorem ticksBefore_length (sc : List command) :
    ticksBefore sc sc.length = scriptTicks sc := by
  simp [ticksBefore, scriptTicks]

theorem ticksBefore_le (sc : List command) (i : Nat) : ticksBefore sc i ≤ scriptTicks sc := by
  induction sc generalizing i with
  | nil => simp [ticksBefore, scriptTicks]
  | cons a t ih =>
    cases i with
    | zero => simp [ticksBefore]
    | succ j =>
      have := ih j
      simp only [ticksBefore, scriptTicks, List.take_succ_cons, List.map_cons,
        List.sum_cons] at this ⊢
      omega

theorem ticksBefore_lt (sc : List command) (i : Nat) (hi : i < sc.length) :
    ticksBefore sc i < scriptTicks sc := by
  obtain ⟨c, hc⟩ : ∃ c, sc[i]? = some c := ⟨sc[i], List.getElem?_eq_getElem hi⟩
  have h1 := ticksBefore_succ sc i c hc
  have h2 := ticksBefore_le sc (i + 1)
  omega

theorem durations_add_index (sc : List command) (i : Nat) (hi : i ≤ sc.length) :
    ticksBefore sc i = durationsBefore sc i + i := by
  induction sc generalizing i with
  | nil =>
    have : i = 0 := by simpa using hi
    subst this
    simp [ticksBefore, durationsBefore]
  | cons a t ih =>
    cases i with
    | zero => simp [ticksBefore, durationsBefore]
    | succ j =>
      have := ih j (by simpa using hi)
      simp only [ticksBefore, durationsBefore, List.take_succ_cons, List.map_cons,
        List.sum_cons] at this ⊢
      omega

theorem scriptTicks_values :
    scriptTicks sync_controller = 822 ∧ scriptTicks buy_item = 4298 ∧
    scriptTicks feed_item = 921 ∧ scriptTicks after_feed = 1228 := by
  decide

theorem scriptTicks_pos (p : State_t) : 0 < scriptTicks (script p) := by
  cases p <;> decide

/-! ## Runs -/

theorem runTicks_add (h : JoystickH) (m n : Nat) (s : State) :
    runTicks h (m + n) s = (runTicks h m s).bind (runTicks h n) := by
  induction m generalizing s with
  | zero => simp [runTicks]
  | succ k ih =>
    rw [Nat.succ_add]
    simp only [runTicks]
    cases GetNextReport h s with
    | none => rfl
    | some p => exact ih p.2

theorem runTicks_succ (h : JoystickH) (n : Nat) (s s1 : State) (r : USB_JoystickReport_Input_t)
    (s2 : State) (h1 : runTicks h n s = some s1) (h2 : GetNextReport h s1 = some (r, s2)) :
    runTicks h (n + 1) s = some s2 := by
  rw [runTicks_add, h1]
  simp [runTicks, h2]

/-- Position inside a traversal: `n` ticks after a phase was entered, with `n`
less than the ticks of one traversal, the automaton is still in that phase at a
step `i` with tick counter `dc`, and `n` is the ticks of the steps before `i`
plus `dc`; no other global has changed. -/
theorem run_within (h : JoystickH) (s0 : State) (hb : s0.bufindex = 0)
    (hd : s0.duration_count = 0) (n : Nat) (hn : n < scriptTicks (script s0.state)) :
    ∃ (i dc : Nat) (c : command), (script s0.state)[i]? = some c ∧ dc ≤ c.duration ∧
      ticksBefore (script s0.state) i + dc = n ∧
      runTicks h n s0 = some { s0 with bufindex := (i : Int), duration_count := (dc : Int) } := by
  induction n with
  | zero =>
    have hpos : 0 < (script s0.state).length := by
      rcases Nat.eq_zero_or_pos (script s0.state).length with h0 | h0
      · rw [List.length_eq_zero.mp h0] at hn
        simp [scriptTicks] at hn
      · exact h0
    refine ⟨0, 0, (script s0.state)[0], List.getElem?_eq_getElem hpos, Nat.zero_le _, ?_, ?_⟩
    · simp [ticksBefore]
    · simp only [runTicks]
      congr 1
      obtain ⟨p, i, dc, pv, ft, pd, pb⟩ := s0
      simp only at hb hd
      subst hb hd
      rfl
  | succ k ih =>
    obtain ⟨i, dc, c, hc, hdc, hk, hrun⟩ := ih (by omega)
    have hi : i < (script s0.state).length := (List.getElem?_eq_some.mp hc).1
    have hread : readTable (script s0.state) (i : Int) = some c := by
      rw [readTable_natCast]
      exact hc
    have hsucc := ticksBefore_succ _ i c hc
    rcases Nat.lt_or_ge dc c.duration with hlt | hge
    · refine ⟨i, dc + 1, c, hc, hlt, by omega, ?_⟩
      refine runTicks_succ h k s0 _ _ _ hrun
        (tick_hold h _ c hread (by simp) (by simp only; omega)) |>.trans ?_
      simp
    · have hdeq : dc = c.duration := by omega
      have hi1 : i + 1 < (script s0.state).length := by
        rcases Nat.lt_or_ge (i + 1) (script s0.state).length with h1 | h1
        · exact h1
        · have : i + 1 = (script s0.state).length := by omega
          have := ticksBefore_length (script s0.state)
          rw [← ‹i + 1 = (script s0.state).length›] at this
          omega
      refine ⟨i + 1, 0, (script s0.state)[i + 1], List.getElem?_eq_getElem hi1,
        Nat.zero_le _, by omega, ?_⟩
      refine runTicks_succ h k s0 _ _ _ hrun
        (tick_next h _ c hread (by simp only; omega) (by simp only; omega)) |>.trans ?_
      simp

/-- A full traversal: after exactly the ticks of one traversal of the script of
its phase, the phase wrap-up has run once, on the step index one past the
script. -/
theorem run_traversal (h : JoystickH) (s0 : State) (hb : s0.bufindex = 0)
    (hd : s0.duration_count = 0) (hpos : 0 < scriptTicks (script s0.state)) :
    runTicks h (scriptTicks (script s0.state)) s0 =
      some (finishPhase { s0 with bufindex := ((script s0.state).length : Int),
                                  duration_count := 0 }) := by
  obtain ⟨i, dc, c, hc, hdc, hk, hrun⟩ :=
    run_within h s0 hb hd (scriptTicks (script s0.state) - 1) (by omega)
  have hi : i < (script s0.state).length := (List.getElem?_eq_some.mp hc).1
  have hread : readTable (script s0.state) (i : Int) = some c := by
    rw [readTable_natCast]
    exact hc
  have hsucc := ticksBefore_succ _ i c hc
  have hle := ticksBefore_le (script s0.state) (i + 1)
  have hdeq : dc = c.duration := by omega
  have hi1 : i + 1 = (script s0.state).length := by
    rcases Nat.lt_or_ge (i + 1) (script s0.state).length with h1 | h1
    · have := ticksBefore_lt (script s0.state) (i + 1) h1
      omega
    · omega
  have hstep := runTicks_succ h _ s0 _ _ _ hrun
    (tick_last h _ c hread (by simp only; omega) (by simp only; omega))
  rw [Nat.sub_add_cancel hpos] at hstep
  rw [hstep]
  congr 2
  simp only
  congr 1
  omega

theorem run_enter_within (h : JoystickH) (p : State_t) (s : State) (n : Nat)
    (hn : n < scriptTicks (script p)) :
    ∃ (i dc : Nat) (c : command), (script p)[i]? = some c ∧ dc ≤ c.duration ∧
      ticksBefore (script p) i + dc = n ∧
      runTicks h n (enterPhase p s) =
        some { enterPhase p s with bufindex := (i : Int), duration_count := (dc : Int) } :=
  run_within h (enterPhase p s) rfl rfl n hn

theorem run_sync_controller (h : JoystickH) (s : State) :
    runTicks h 822 (enterPhase .SYNC_CONTROLLER s) =
      some (enterPhase .BUY_ITEM (togglePorts s)) := by
  have := run_traversal h (enterPhase .SYNC_CONTROLLER s) rfl rfl (scriptTicks_pos _)
  simpa [enterPhase, script, scriptTicks_values.1, finishPhase, togglePorts] using this

theorem run_buy_item (h : JoystickH) (s : State) :
    runTicks h 4298 (enterPhase .BUY_ITEM s) =
      some (enterPhase .FEED_ITEM (togglePorts s)) := by
  have := run_traversal h (enterPhase .BUY_ITEM s) rfl rfl (scriptTicks_pos _)
  simpa [enterPhase, script, scriptTicks_values.2.1, finishPhase, togglePorts] using this

theorem run_after_feed (h : JoystickH) (s : State) :
    runTicks h 1228 (enterPhase .AFTER_FEED s) =
      some (enterPhase .BUY_ITEM (togglePorts s)) := by
  have := run_traversal h (enterPhase .AFTER_FEED s) rfl rfl (scriptTicks_pos _)
  simpa [enterPhase, script, scriptTicks_values.2.2.2, finishPhase, togglePorts] using this

/-- One traversal of `feed_item` that is not the last: back to step 0 with
`feed_time` one less, and nothing else changed. -/
theorem run_feed_item_more (h : JoystickH) (s : State) (hft : 1 < s.feed_time) :
    runTicks h 921 (enterPhase .FEED_ITEM s) =
      some (enterPhase .FEED_ITEM { s with feed_time := s.feed_time - 1 }) := by
  have := run_traversal h (enterPhase .FEED_ITEM s) rfl rfl (scriptTicks_pos _)
  have hne : ¬ s.feed_time - 1 < 1 := by omega
  simpa [enterPhase, script, scriptTicks_values.2.2.1, finishPhase, hne] using this

/-- The last traversal of `feed_item`: on to `AFTER_FEED`, `feed_time` back to
10, the indicator toggled. -/
theorem run_feed_item_last (h : JoystickH) (s : State) (hft : s.feed_time ≤ 1) :
    runTicks h 921 (enterPhase .FEED_ITEM s) =
      some (enterPhase .AFTER_FEED (togglePorts { s with feed_time := 10 })) := by
  have := run_traversal h (enterPhase .FEED_ITEM s) rfl rfl (scriptTicks_pos _)
  have hlt : s.feed_time - 1 < 1 := by omega
  simpa [enterPhase, script, scriptTicks_values.2.2.1, finishPhase, hlt, togglePorts] using this

/-- After `k` traversals of `feed_item`, with more than `k` still to do, the
automaton is at the entry of `FEED_ITEM` with `feed_time` lowered by `k`. -/
theorem run_feed_item_rounds (h : JoystickH) (s : State) (k : Nat)
    (hk : (k : Int) < s.feed_time) :
    runTicks h (921 * k) (enterPhase .FEED_ITEM s) =
      some (enterPhase .FEED_ITEM { s with feed_time := s.feed_time - (k : Int) }) := by
  induction k with
  | zero => simp [runTicks]
  | succ j ih =>
    have hj : (j : Int) < s.feed_time := by push_cast at hk; omega
    rw [Nat.mul_succ, runTicks_add, ih hj]
    simp only [Option.some_bind]
    rw [run_feed_item_more h _ (by simp only; push_cast at hk; omega)]
    simp only [enterPhase]
    congr 2
    push_cast
    omega

/-- Holding a step: from tick counter 0, the first `k` ticks of a step of
duration at least `k` only count. -/
theorem run_hold (h : JoystickH) (s : State) (c : command)
    (hc : readTable (script s.state) s.bufindex = some c) (hd : s.duration_count = 0)
    (k : Nat) (hk : k ≤ c.duration) :
    runTicks h k s = some { s with duration_count := (k : Int) } := by
  induction k with
  | zero =>
    simp only [runTicks]
    congr 1
    obtain ⟨p, i, dc, pv, ft, pd, pb⟩ := s
    simp only at hd
    subst hd
    rfl
  | succ j ih =>
    refine (runTicks_succ h j s _ _ _ (ih (by omega))
      (tick_hold h _ c hc (by simp) (by simp only; omega))).trans ?_
    simp

/-- Completing a step: from tick counter 0, after `duration + 1` ticks the
automaton is at the start of the next step, or past the phase wrap-up when the
step was the last of its script. -/
theorem run_step (h : JoystickH) (s : State) (c : command)
    (hc : readTable (script s.state) s.bufindex = some c) (hd : s.duration_count = 0) :
    runTicks h (c.duration + 1) s = some
      (if s.bufindex + 1 < ((script s.state).length : Int) then
        { s with bufindex := s.bufindex + 1, duration_count := 0 }
      else finishPhase { s with bufindex := s.bufindex + 1, duration_count := 0 }) := by
  have hr := (inRange_of_readTable s c hc).2
  have hrun := run_hold h s c hc hd c.duration (Nat.le_refl _)
  by_cases hlt : s.bufindex + 1 < ((script s.state).length : Int)
  · rw [if_pos hlt]
    exact runTicks_succ h _ s _ _ _ hrun (tick_next h _ c hc rfl hlt)
  · rw [if_neg hlt]
    exact runTicks_succ h _ s _ _ _ hrun (tick_last h _ c hc rfl (by simp only; omega))

/-- Ticks never leave the in-range states, and never fail on them. -/
theorem runTicks_inRange (h : JoystickH) (n : Nat) (s : State) (hs : InRange s) :
    ∃ s1, runTicks h n s = some s1 ∧ InRange s1 := by
  induction n generalizing s with
  | zero => exact ⟨s, rfl, hs⟩
  | succ k ih =>
    obtain ⟨r, s1, hr, hcase⟩ := tick_cases h s hs
    have hs1 : InRange s1 := by
      rcases hcase with ⟨hp, hb, _⟩ | ⟨hp, hb, _, hlt, _⟩ | ⟨_, hfin⟩
      · unfold InRange
        rw [hp, hb]
        exact hs
      · unfold InRange
        rw [hp]
        exact ⟨by have := hs.1; omega, hlt⟩
      · unfold InRange
        rw [hfin, finishPhase_bufindex]
        refine ⟨Int.le_refl _, ?_⟩
        generalize (finishPhase _).state = q
        cases q <;> decide
    obtain ⟨s2, hrun, hs2⟩ := ih s1 hs1
    refine ⟨s2, ?_, hs2⟩
    simp only [runTicks, hr]
    exact hrun

/-! ## Reports -/

theorem lor_land_left (a b : Nat) : (a ||| b) &&& a = a := by
  apply Nat.eq_of_testBit_eq
  intro i
  simp only [Nat.testBit_and, Nat.testBit_or]
  cases a.testBit i <;> cases b.testBit i <;> rfl

theorem lor_land_right (a b : Nat) : (a ||| b) &&& b = b := by
  apply Nat.eq_of_testBit_eq
  intro i
  simp only [Nat.testBit_and, Nat.testBit_or]
  cases a.testBit i <;> cases b.testBit i <;> rfl


theorem labels_cover (p : State_t) : ∀ c ∈ script p, c.button ∈ caseLabels p := by
  cases p <;> decide

theorem switch_on_label (h : JoystickH) (p : State_t) (b : Buttons_t)
    (hb : b ∈ caseLabels p) :
    phaseSwitch h p b (emptyReport h) = specMapper h b (specNeutral h) := by
  cases p <;> cases b <;> simp [caseLabels] at hb <;> rfl

/-- The report of a tick from an in-range state is the spec mapper's report for
the symbol of the current step. -/
theorem report_of_inRange (h : JoystickH) (s : State) (hs : InRange s) :
    ∃ c r s1, readTable (script s.state) s.bufindex = some c ∧
      GetNextReport h s = some (r, s1) ∧ r = specMapper h c.button (specNeutral h) := by
  obtain ⟨c, hc⟩ := readTable_of_inRange s hs
  refine ⟨c, _, _, hc, GetNextReport_eq h s c hc, ?_⟩
  apply switch_on_label
  apply labels_cover
  rw [readTable_some_iff] at hc
  exact List.getElem?_mem hc.2

/-! ## Indicator pulses -/

theorem complement_ne (x : Int) : ~~~ x ≠ x := by
  intro hx
  cases x with
  | ofNat n => exact Int.noConfusion hx
  | negSucc n => exact Int.noConfusion hx

theorem not_pulsed_of_portsval (s s1 : State) (hp : s1.portsval = s.portsval) :
    ¬ pulsed s s1 := by
  intro hpul
  have := hpul.1
  rw [hp] at this
  exact complement_ne _ this.symm

/-- The wrap-up of a phase other than FEED_ITEM, and of FEED_ITEM on its last
traversal, pulses and changes the phase. -/
theorem finishPhase_pulse (s : State) (b dc : Int)
    (hcond : s.state ≠ .FEED_ITEM ∨ s.feed_time - 1 < 1) :
    pulsed s (finishPhase { s with bufindex := b, duration_count := dc }) ∧
      (finishPhase { s with bufindex := b, duration_count := dc }).state ≠ s.state := by
  obtain ⟨p, i, d, pv, ft, pd, pb⟩ := s
  cases p <;> simp_all [finishPhase, togglePorts, pulsed]

/-- The wrap-up of FEED_ITEM on a traversal that is not the last leaves the
indicator and the phase alone. -/
theorem finishPhase_quiet (s : State) (b dc : Int)
    (hp : s.state = .FEED_ITEM) (hft : ¬ s.feed_time - 1 < 1) :
    (finishPhase { s with bufindex := b, duration_count := dc }).portsval = s.portsval ∧
    (finishPhase { s with bufindex := b, duration_count := dc }).PORTD = s.PORTD ∧
    (finishPhase { s with bufindex := b, duration_count := dc }).PORTB = s.PORTB ∧
    (finishPhase { s with bufindex := b, duration_count := dc }).state = s.state := by
  obtain ⟨p, i, d, pv, ft, pd, pb⟩ := s
  simp only at hp hft
  subst hp
  simp [finishPhase, hft]

/-! ## Report sequences -/

theorem reportsOf_append (h : JoystickH) (m n : Nat) (s s1 : State)
    (rs1 rs2 : List USB_JoystickReport_Input_t)
    (h1 : reportsOf h m s = some rs1) (h2 : runTicks h m s = some s1)
    (h3 : reportsOf h n s1 = some rs2) :
    reportsOf h (m + n) s = some (rs1 ++ rs2) := by
  induction m generalizing s rs1 with
  | zero =>
    simp only [reportsOf, Option.some.injEq] at h1
    simp only [runTicks, Option.some.injEq] at h2
    subst h1 h2
    simpa using h3
  | succ k ih =>
    rw [Nat.succ_add]
    simp only [reportsOf, runTicks] at h1 h2 ⊢
    cases hg : GetNextReport h s with
    | none => simp [hg] at h1
    | some p =>
      simp only [hg] at h1 h2 ⊢
      cases hk : reportsOf h k p.2 with
      | none => simp [hk] at h1
      | some rs =>
        simp only [hk, Option.some.injEq] at h1
        subst h1
        rw [ih p.2 rs hk h2]
        rfl

/-- The reports of the rest of a step: every tick of a step writes the report
of the step. -/
theorem block_reports (h : JoystickH) (c : command) (m : Nat) :
    ∀ (s : State) (dc : Nat), readTable (script s.state) s.bufindex = some c →
      s.duration_count = (dc : Int) → dc + m = c.duration + 1 →
      reportsOf h m s =
        some (List.replicate m (phaseSwitch h s.state c.button (emptyReport h))) := by
  induction m with
  | zero => intro s dc _ _ _; rfl
  | succ j ih =>
    intro s dc hc hd hm
    rcases Nat.eq_zero_or_pos j with hj | hj
    · subst hj
      simp [reportsOf, GetNextReport_eq h s c hc]
    · have htick := tick_hold h s c hc (by omega) (by omega)
      have hrest := ih { s with duration_count := s.duration_count + 1 } (dc + 1) hc
        (by simp only; omega) (by omega)
      simp only [reportsOf, htick, hrest, List.replicate_succ]

theorem expandScript_congr (f g : Buttons_t → USB_JoystickReport_Input_t)
    (l : List command) (hfg : ∀ c ∈ l, f c.button = g c.button) :
    expandScript f l = expandScript g l := by
  induction l with
  | nil => rfl
  | cons c t ih =>
    simp only [expandScript]
    rw [hfg c (List.mem_cons_self _ _), ih (fun d hd => hfg d (List.mem_cons_of_mem _ hd))]

theorem expandScript_length (f : Buttons_t → USB_JoystickReport_Input_t) (l : List command) :
    (expandScript f l).length = scriptTicks l := by
  induction l with
  | nil => rfl
  | cons c t ih =>
    simp only [expandScript, List.length_append, List.length_replicate, ih, scriptTicks,
      List.map_cons, List.sum_cons]

/-- The reports of the rest of a traversal, from the start of step `i`. -/
theorem traversal_reports (h : JoystickH) (l : List command) :
    ∀ (i : Nat) (s0 : State), (script s0.state).drop i = l → s0.bufindex = (i : Int) →
      s0.duration_count = 0 →
      reportsOf h (scriptTicks l) s0 =
        some (expandScript (fun b => phaseSwitch h s0.state b (emptyReport h)) l) := by
  induction l with
  | nil => intro i s0 _ _ _; rfl
  | cons c t ih =>
    intro i s0 hdrop hb hd
    have hi : i < (script s0.state).length := by
      by_contra hge
      rw [List.drop_eq_nil_of_le (by omega)] at hdrop
      cases hdrop
    have hcons := List.drop_eq_getElem_cons hi
    rw [hdrop] at hcons
    have hget : (script s0.state)[i] = c := by
      have := (List.cons.inj hcons).1
      exact this.symm
    have ht : (script s0.state).drop (i + 1) = t := ((List.cons.inj hcons).2).symm
    have hc : readTable (script s0.state) s0.bufindex = some c := by
      rw [hb, readTable_natCast, List.getElem?_eq_getElem hi, hget]
    have hblock := block_reports h c (c.duration + 1) s0 0 hc (by simpa using hd) (by omega)
    have hstep := run_step h s0 c hc hd
    have hsplit : scriptTicks (c :: t) = (c.duration + 1) + scriptTicks t := by
      simp [scriptTicks]
    rw [hsplit]
    refine reportsOf_append h _ _ s0 _ _ _ hblock hstep ?_
    rcases t with _ | ⟨c1, t1⟩
    · rfl
    · have hi1 : i + 1 < (script s0.state).length := by
        by_contra hge
        rw [List.drop_eq_nil_of_le (by omega)] at ht
        cases ht
      rw [if_pos (by rw [hb]; omega)]
      exact ih (i + 1) { s0 with bufindex := s0.bufindex + 1, duration_count := 0 } ht
        (by simp only [hb]; push_cast; rfl) rfl

/-- The run from power-up reaches the last tick of the first traversal of
`feed_item` after 822 + 4298 + 920 ticks. -/
theorem reach_lastTickOfFirstFeed (h : JoystickH) :
    runTicks h 6040 initialState = some lastTickOfFirstFeed := by
  have h1 : runTicks h 822 initialState =
      some (enterPhase .BUY_ITEM (togglePorts initialState)) :=
    run_sync_controller h initialState
  have h2 := run_buy_item h (togglePorts initialState)
  obtain ⟨i, dc, c, hc, hdc, hsum, hrun⟩ :=
    run_enter_within h .FEED_ITEM (togglePorts (togglePorts initialState)) 920 (by decide)
  have hi : i < 6 := (List.getElem?_eq_some.mp hc).1
  have hpos : i = 5 ∧ dc = 300 := by
    interval_cases i <;>
      simp [script, feed_item, ticksBefore] at hc hsum <;>
      subst hc <;> simp only at hdc <;> omega
  obtain ⟨hi5, hdc300⟩ := hpos
  subst hi5 hdc300
  have hadd1 := runTicks_add h 4298 920 (enterPhase .BUY_ITEM (togglePorts initialState))
  rw [h2, Option.some_bind, hrun] at hadd1
  have hadd2 := runTicks_add h 822 (4298 + 920) initialState
  rw [h1, Option.some_bind, hadd1] at hadd2
  exact hadd2

/-! ## Bounds on reachable states -/

theorem finishPhase_inRange (s : State) : InRange (finishPhase s) := by
  unfold InRange
  rw [finishPhase_bufindex]
  refine ⟨Int.le_refl _, ?_⟩
  generalize (finishPhase s).state = q
  cases q <;> decide

theorem finishPhase_feed_time (s : State) (h1 : 1 ≤ s.feed_time) (h2 : s.feed_time ≤ 10) :
    1 ≤ (finishPhase s).feed_time ∧ (finishPhase s).feed_time ≤ 10 := by
  obtain ⟨p, i, dc, pv, ft, pd, pb⟩ := s
  simp only at h1 h2
  cases p <;> simp only [finishPhase, togglePorts]
  · exact ⟨h1, h2⟩
  · exact ⟨h1, h2⟩
  · split
    · simp
    · simp only
      omega
  · exact ⟨h1, h2⟩

/-- The bounds are kept by a tick, and a tick from a state within the bounds
returns. -/
theorem wellFormed_tick (h : JoystickH) (s : State) (hs : WellFormed s) :
    ∃ r s1, GetNextReport h s = some (r, s1) ∧ WellFormed s1 := by
  obtain ⟨c, hc, h0, h1, hf1, hf2⟩ := hs
  have hr := inRange_of_readTable s c hc
  rcases Int.lt_or_le s.duration_count (c.duration : Int) with hlt | hge
  · refine ⟨_, _, tick_hold h s c hc h0 hlt, c, hc, ?_, ?_, hf1, hf2⟩
    · simp only; omega
    · simp only; omega
  · have heq : s.duration_count = (c.duration : Int) := by omega
    rcases Int.lt_or_le (s.bufindex + 1) ((script s.state).length : Int) with hl | hl
    · refine ⟨_, _, tick_next h s c hc heq hl, ?_⟩
      obtain ⟨c1, hc1⟩ := readTable_of_inRange
        { s with bufindex := s.bufindex + 1, duration_count := 0 }
        ⟨by have := hr.1; simp only; omega, hl⟩
      exact ⟨c1, hc1, Int.le_refl _, by simp only; omega, hf1, hf2⟩
    · refine ⟨_, _, tick_last h s c hc heq (by have := hr.2; omega), ?_⟩
      obtain ⟨c1, hc1⟩ := readTable_of_inRange _
        (finishPhase_inRange { s with bufindex := s.bufindex + 1, duration_count := 0 })
      have hft := finishPhase_feed_time
        { s with bufindex := s.bufindex + 1, duration_count := 0 } hf1 hf2
      refine ⟨c1, hc1, ?_, ?_, hft.1, hft.2⟩
      · rw [finishPhase_duration_count]
      · rw [finishPhase_duration_count]
        simp only
        omega

theorem wellFormed_run (h : JoystickH) (n : Nat) (s : State) (hs : WellFormed s) :
    ∃ s1, runTicks h n s = some s1 ∧ WellFormed s1 := by
  induction n generalizing s with
  | zero => exact ⟨s, rfl, hs⟩
  | succ k ih =>
    obtain ⟨r, s1, hr, hs1⟩ := wellFormed_tick h s hs
    obtain ⟨s2, hrun, hs2⟩ := ih s1 hs1
    refine ⟨s2, ?_, hs2⟩
    simp only [runTicks, hr]
    exact hrun

theorem wellFormed_initialState : WellFormed initialState :=
  ⟨⟨.NOTHING, 250⟩, by decide, by decide, by decide, by decide, by decide⟩

/-! ## Independence from the indicator -/

theorem GetNextReport_none (h : JoystickH) (s : State)
    (hc : readTable (script s.state) s.bufindex = none) : GetNextReport h s = none := by
  obtain ⟨p, i, dc, pv, ft, pd, pb⟩ := s
  cases p <;> simp only [script] at hc <;> simp only [GetNextReport, hc]

theorem advanceStep_congr (c : command) (s t : State)
    (hst : sequencerTuple s = sequencerTuple t) :
    sequencerTuple (advanceStep c s) = sequencerTuple (advanceStep c t) := by
  obtain ⟨p, i, dc, pv, ft, pd, pb⟩ := s
  obtain ⟨p1, i1, dc1, pv1, ft1, pd1, pb1⟩ := t
  simp only [sequencerTuple, Prod.mk.injEq] at hst
  obtain ⟨rfl, rfl, rfl, rfl⟩ := hst
  simp only [advanceStep]
  split <;> rfl

theorem finishPhase_congr (s t : State) (hst : sequencerTuple s = sequencerTuple t) :
    sequencerTuple (finishPhase s) = sequencerTuple (finishPhase t) := by
  obtain ⟨p, i, dc, pv, ft, pd, pb⟩ := s
  obtain ⟨p1, i1, dc1, pv1, ft1, pd1, pb1⟩ := t
  simp only [sequencerTuple, Prod.mk.injEq] at hst
  obtain ⟨rfl, rfl, rfl, rfl⟩ := hst
  cases p <;> simp only [finishPhase, togglePorts, sequencerTuple]
  split <;> rfl

/-- The report of a tick and the next phase, step index, tick counter and
`feed_time` are functions of the current phase, step index, tick counter and
`feed_time` alone. -/
theorem tick_congr (h : JoystickH) (s t : State)
    (hst : sequencerTuple s = sequencerTuple t) :
    (GetNextReport h s).map (fun p => (p.1, sequencerTuple p.2)) =
      (GetNextReport h t).map (fun p => (p.1, sequencerTuple p.2)) := by
  have hst1 := hst
  simp only [sequencerTuple, Prod.mk.injEq] at hst1
  obtain ⟨hp, hb, _, _⟩ := hst1
  cases hread : readTable (script s.state) s.bufindex with
  | none =>
    rw [GetNextReport_none h s hread, GetNextReport_none h t (by rw [← hp, ← hb]; exact hread)]
  | some c =>
    have hadv := advanceStep_congr c s t hst
    have hbi : (advanceStep c s).bufindex = (advanceStep c t).bufindex := by
      have := congrArg (fun x => x.2.1) hadv
      exact this
    rw [GetNextReport_eq h s c hread,
      GetNextReport_eq h t c (by rw [← hp, ← hb]; exact hread)]
    simp only [Option.map_some', Option.some.injEq, Prod.mk.injEq]
    refine ⟨by rw [hp], ?_⟩
    rw [← hp, ← hbi]
    split
    · exact finishPhase_congr _ _ hadv
    · exact hadv

theorem run_congr (h : JoystickH) (n : Nat) (s t : State)
    (hst : sequencerTuple s = sequencerTuple t) :
    (runTicks h n s).map sequencerTuple = (runTicks h n t).map sequencerTuple := by
  induction n generalizing s t with
  | zero => simp [runTicks, hst]
  | succ k ih =>
    have htick := tick_congr h s t hst
    simp only [runTicks]
    cases hs : GetNextReport h s with
    | none =>
      cases ht : GetNextReport h t with
      | none => rfl
      | some q => simp [hs, ht] at htick
    | some p =>
      cases ht : GetNextReport h t with
      | none => simp [hs, ht] at htick
      | some q =>
        simp only [hs, ht, Option.map_some', Option.some.injEq, Prod.mk.injEq] at htick
        exact ih p.2 q.2 htick.2

/-! ## Shape of the reports -/

/-- Every `switch`, on every symbol, leaves the sticks neutral, the hat neutral
or LEFT, and at most one of the button patterns of the scripts; a changed hat
comes with no button. -/
theorem switch_shape (h : JoystickH) (p : State_t) (b : Buttons_t) :
    (phaseSwitch h p b (emptyReport h)).LX = h.STICK_CENTER ∧
    (phaseSwitch h p b (emptyReport h)).LY = h.STICK_CENTER ∧
    (phaseSwitch h p b (emptyReport h)).RX = h.STICK_CENTER ∧
    (phaseSwitch h p b (emptyReport h)).RY = h.STICK_CENTER ∧
    ((phaseSwitch h p b (emptyReport h)).HAT = h.HAT_CENTER ∨
      ((phaseSwitch h p b (emptyReport h)).HAT = h.HAT_LEFT ∧
        (phaseSwitch h p b (emptyReport h)).Button = 0)) ∧
    ((phaseSwitch h p b (emptyReport h)).Button = 0 ∨
      (phaseSwitch h p b (emptyReport h)).Button = h.SWITCH_A ∨
      (phaseSwitch h p b (emptyReport h)).Button = h.SWITCH_B ∨
      (phaseSwitch h p b (emptyReport h)).Button = h.SWITCH_PLUS ∨
      (phaseSwitch h p b (emptyReport h)).Button = h.SWITCH_L ||| h.SWITCH_R) := by
  cases p <;> cases b <;>
    simp [phaseSwitch, switch_sync_controller, switch_buy_item, switch_feed_item,
      switch_after_feed, emptyReport, setNeutral]

/-! ## The cycle BUY_ITEM, FEED_ITEM, AFTER_FEED -/

/-- One full cycle: from the entry of BUY_ITEM with `feed_time = 10`, after
4298 + 9210 + 1228 ticks the automaton is at the entry of BUY_ITEM again, with
`feed_time = 10`. -/
theorem run_cycle (h : JoystickH) (s : State) (hft : s.feed_time = 10) :
    ∃ s1, runTicks h 14736 (enterPhase .BUY_ITEM s) = some (enterPhase .BUY_ITEM s1) ∧
      s1.feed_time = 10 := by
  have h1 := run_buy_item h s
  have h2 := run_feed_item_rounds h (togglePorts s) 9 (by
    show ((9 : Nat) : Int) < s.feed_time
    omega)
  have h3 := run_feed_item_last h
    { togglePorts s with feed_time := (togglePorts s).feed_time - ((9 : Nat) : Int) } (by
    show s.feed_time - ((9 : Nat) : Int) ≤ 1
    omega)
  have h4 := run_after_feed h (togglePorts
    { ({ togglePorts s with feed_time := (togglePorts s).feed_time - ((9 : Nat) : Int) } : State)
      with feed_time := 10 })
  have ha := runTicks_add h 921 1228 (enterPhase .FEED_ITEM
    { togglePorts s with feed_time := (togglePorts s).feed_time - ((9 : Nat) : Int) })
  rw [h3, Option.some_bind, h4] at ha
  have hb := runTicks_add h (921 * 9) (921 + 1228) (enterPhase .FEED_ITEM (togglePorts s))
  rw [h2, Option.some_bind, ha] at hb
  have hc := runTicks_add h 4298 (921 * 9 + (921 + 1228)) (enterPhase .BUY_ITEM s)
  rw [h1, Option.some_bind, hb] at hc
  exact ⟨_, hc, rfl⟩

/-- The entries of BUY_ITEM of the run from power-up: after 822 ticks and then
every 14736 ticks. -/
theorem run_to_buy_entry (h : JoystickH) (k : Nat) :
    ∃ s1, runTicks h (822 + 14736 * k) initialState = some (enterPhase .BUY_ITEM s1) ∧
      s1.feed_time = 10 := by
  induction k with
  | zero => exact ⟨togglePorts initialState, run_sync_controller h initialState, rfl⟩
  | succ j ih =>
    obtain ⟨s1, hrun, hft⟩ := ih
    obtain ⟨s2, hcyc, hft2⟩ := run_cycle h s1 hft
    have hadd := runTicks_add h (822 + 14736 * j) 14736 initialState
    rw [hrun, Option.some_bind, hcyc] at hadd
    rw [show 822 + 14736 * j + 14736 = 822 + 14736 * (j + 1) by omega] at hadd
    exact ⟨s2, hadd, hft2⟩

theorem inRange_enterPhase (p : State_t) (s : State) : InRange (enterPhase p s) := by
  show (0 : Int) ≤ 0 ∧ (0 : Int) < ((script p).length : Int)
  cases p <;> decide

/-- A tick keeps the step index in range and never enters SYNC_CONTROLLER. -/
theorem tick_inRange_notSync (h : JoystickH) (s : State) (hs : InRange s) :
    ∃ r s1, GetNextReport h s = some (r, s1) ∧ InRange s1 ∧
      (s.state ≠ .SYNC_CONTROLLER → s1.state ≠ .SYNC_CONTROLLER) := by
  obtain ⟨r, s1, hr, hcase⟩ := tick_cases h s hs
  refine ⟨r, s1, hr, ?_, ?_⟩
  · rcases hcase with ⟨hp, hb, _⟩ | ⟨hp, hb, _, hlt, _⟩ | ⟨_, hfin⟩
    · unfold InRange
      rw [hp, hb]
      exact hs
    · unfold InRange
      rw [hp]
      exact ⟨by have := hs.1; omega, hlt⟩
    · rw [hfin]
      exact finishPhase_inRange _
  · intro hne
    rcases hcase with ⟨hp, _⟩ | ⟨hp, _⟩ | ⟨_, hfin⟩
    · rw [hp]; exact hne
    · rw [hp]; exact hne
    · have hf := finishPhase_state { s with bufindex := s.bufindex + 1, duration_count := 0 }
      rw [← hfin] at hf
      simp only at hf
      rcases hf with ⟨ha, _⟩ | ⟨_, hb⟩ | ⟨_, hb | hb⟩ | ⟨_, hb⟩
      · exact absurd ha hne
      · simp [hb]
      · simp [hb]
      · simp [hb]
      · simp [hb]

theorem run_notSync (h : JoystickH) (n : Nat) (s : State) (hs : InRange s)
    (hne : s.state ≠ .SYNC_CONTROLLER) :
    ∃ s1, runTicks h n s = some s1 ∧ InRange s1 ∧ s1.state ≠ .SYNC_CONTROLLER := by
  induction n generalizing s with
  | zero => exact ⟨s, rfl, hs, hne⟩
  | succ k ih =>
    obtain ⟨r, s1, hr, hs1, hne1⟩ := tick_inRange_notSync h s hs
    obtain ⟨s2, hrun, hs2, hne2⟩ := ih s1 hs1 (hne1 hne)
    refine ⟨s2, ?_, hs2, hne2⟩
    simp only [runTicks, hr]
    exact hrun

/-- The report of tick `m + 1` is the report written from the state after `m`
ticks. -/
theorem reportOfTick_succ (h : JoystickH) (m : Nat) (s s1 : State)
    (r : USB_JoystickReport_Input_t) (s2 : State)
    (h1 : runTicks h m s = some s1) (h2 : GetNextReport h s1 = some (r, s2)) :
    reportOfTick h (m + 1) s = some r := by
  unfold reportOfTick
  rw [Nat.add_sub_cancel, h1]
  simp only [h2]

/-- Periodicity of the sequencer tuple from the first entry of BUY_ITEM on. -/
theorem run_period (h : JoystickH) (n : Nat) (hn : 822 ≤ n) :
    ∃ s t, runTicks h n initialState = some s ∧
      runTicks h (n + 14736) initialState = some t ∧
      sequencerTuple t = sequencerTuple s ∧ InRange s ∧ InRange t ∧
      s.state ≠ .SYNC_CONTROLLER := by
  obtain ⟨a, hrunA, hftA⟩ := run_to_buy_entry h 0
  obtain ⟨b, hrunB, hftB⟩ := run_to_buy_entry h 1
  have hA := inRange_enterPhase .BUY_ITEM a
  have hB := inRange_enterPhase .BUY_ITEM b
  obtain ⟨s, hs, hsr, hsne⟩ := run_notSync h (n - 822) _ hA (by simp [enterPhase])
  obtain ⟨t, ht, htr⟩ := runTicks_inRange h (n - 822) _ hB
  have htuple : sequencerTuple (enterPhase .BUY_ITEM b) =
      sequencerTuple (enterPhase .BUY_ITEM a) := by
    simp only [sequencerTuple, enterPhase, hftA, hftB]
  have hcongr := run_congr h (n - 822) _ _ htuple
  rw [hs, ht] at hcongr
  simp only [Option.map_some', Option.some.injEq] at hcongr
  have h1 := runTicks_add h (822 + 14736 * 0) (n - 822) initialState
  rw [hrunA, Option.some_bind, hs] at h1
  have h2 := runTicks_add h (822 + 14736 * 1) (n - 822) initialState
  rw [hrunB, Option.some_bind, ht] at h2
  rw [show 822 + 14736 * 0 + (n - 822) = n by omega] at h1
  rw [show 822 + 14736 * 1 + (n - 822) = n + 14736 by omega] at h2
  exact ⟨s, t, h1, h2, hcongr, hsr, htr, hsne⟩

/-! ## Phase graph -/

/-- C1: from every state whose step index is in range, one call of
`GetNextReport` returns, and the phase either stays or follows one of the edges
SYNC_CONTROLLER to BUY_ITEM, BUY_ITEM to FEED_ITEM, FEED_ITEM to AFTER_FEED,
AFTER_FEED to BUY_ITEM; a tick that changes the phase never changes it to
SYNC_CONTROLLER. -/
theorem phase_moves_along_edges (h : JoystickH) (s : State) (hs : InRange s) :
    ∃ r s1, GetNextReport h s = some (r, s1) ∧
      (s1.state = s.state ∨
        (s.state = .SYNC_CONTROLLER ∧ s1.state = .BUY_ITEM) ∨
        (s.state = .BUY_ITEM ∧ s1.state = .FEED_ITEM) ∨
        (s.state = .FEED_ITEM ∧ s1.state = .AFTER_FEED) ∨
        (s.state = .AFTER_FEED ∧ s1.state = .BUY_ITEM)) ∧
      (s1.state ≠ s.state → s1.state ≠ .SYNC_CONTROLLER) := by
  obtain ⟨r, s1, hr, hcase⟩ := tick_cases h s hs
  refine ⟨r, s1, hr, ?_⟩
  rcases hcase with ⟨hp, _⟩ | ⟨hp, _⟩ | ⟨_, hfin⟩
  · exact ⟨Or.inl hp, fun hne => absurd hp hne⟩
  · exact ⟨Or.inl hp, fun hne => absurd hp hne⟩
  · have hf := finishPhase_state { s with bufindex := s.bufindex + 1, duration_count := 0 }
    rw [← hfin] at hf
    simp only at hf
    rcases hf with ⟨ha, hb⟩ | ⟨ha, hb⟩ | ⟨ha, hb | hb⟩ | ⟨ha, hb⟩ <;>
      simp [ha, hb]

/-- Witness for C1 at the power-up state. -/
theorem phase_moves_along_edges_witness :
    InRange initialState ∧
    ∃ r s1, GetNextReport sampleHeader initialState = some (r, s1) ∧
      (s1.state = initialState.state ∨
        (initialState.state = .SYNC_CONTROLLER ∧ s1.state = .BUY_ITEM) ∨
        (initialState.state = .BUY_ITEM ∧ s1.state = .FEED_ITEM) ∨
        (initialState.state = .FEED_ITEM ∧ s1.state = .AFTER_FEED) ∨
        (initialState.state = .AFTER_FEED ∧ s1.state = .BUY_ITEM)) ∧
      (s1.state ≠ initialState.state → s1.state ≠ .SYNC_CONTROLLER) :=
  ⟨by decide, phase_moves_along_edges sampleHeader initialState (by decide)⟩

/-! ## Traversals -/

/-- C2: from the entry state of FEED_ITEM with `feed_time = 10`, the script
`feed_item` (6 steps, durations summing to 915, so 921 ticks a traversal) is
traversed ten times before the phase changes: after every `n < 9210` ticks the
phase is still FEED_ITEM and `feed_time = 10 - n / 921`; after `921 * k` ticks
(`k < 10`) the automaton is back at step 0 with `feed_time = 10 - k`; and after
exactly 9210 ticks the state is AFTER_FEED with `bufindex = 0`,
`duration_count = 0` and `feed_time = 10`. -/
theorem feed_item_ten_traversals (h : JoystickH) (s : State) (hft : s.feed_time = 10) :
    ((feed_item.map fun c => c.duration).sum = 915 ∧ feed_item.length = 6 ∧
      9210 = 10 * (915 + 6)) ∧
    (∀ n : Nat, n < 9210 → ∃ s1, runTicks h n (enterPhase .FEED_ITEM s) = some s1 ∧
      s1.state = .FEED_ITEM ∧ s1.feed_time = 10 - ((n / 921 : Nat) : Int)) ∧
    (∀ k : Nat, k < 10 → runTicks h (921 * k) (enterPhase .FEED_ITEM s) =
      some (enterPhase .FEED_ITEM { s with feed_time := 10 - (k : Int) })) ∧
    (∃ s1, runTicks h 9210 (enterPhase .FEED_ITEM s) = some s1 ∧ s1.state = .AFTER_FEED ∧
      s1.bufindex = 0 ∧ s1.duration_count = 0 ∧ s1.feed_time = 10) := by
  refine ⟨by decide, ?_, ?_, ?_⟩
  · intro n hn
    have hk : ((n / 921 : Nat) : Int) < s.feed_time := by omega
    have hsplit : n = 921 * (n / 921) + n % 921 := (Nat.div_add_mod n 921).symm
    have hmod : n % 921 < scriptTicks (script .FEED_ITEM) := by
      rw [show scriptTicks (script .FEED_ITEM) = 921 from scriptTicks_values.2.2.1]
      exact Nat.mod_lt _ (by decide)
    obtain ⟨i, dc, c, _, _, _, hrun⟩ :=
      run_enter_within h .FEED_ITEM { s with feed_time := s.feed_time - ((n / 921 : Nat) : Int) }
        (n % 921) hmod
    have hadd := runTicks_add h (921 * (n / 921)) (n % 921) (enterPhase .FEED_ITEM s)
    rw [← hsplit, run_feed_item_rounds h s (n / 921) hk, Option.some_bind, hrun] at hadd
    exact ⟨_, hadd, rfl, by simp only [enterPhase]; omega⟩
  · intro k hk
    rw [run_feed_item_rounds h s k (by omega), hft]
  · have hadd := runTicks_add h (921 * 9) 921 (enterPhase .FEED_ITEM s)
    rw [run_feed_item_rounds h s 9 (by omega), Option.some_bind,
      run_feed_item_last h _ (by simp only; omega)] at hadd
    exact ⟨_, hadd, rfl, rfl, rfl, rfl⟩

/-- Witness for C2 at the globals of the power-up state. -/
theorem feed_item_ten_traversals_witness :
    initialState.feed_time = 10 ∧
    ∃ s1, runTicks sampleHeader 9210 (enterPhase .FEED_ITEM initialState) = some s1 ∧
      s1.state = .AFTER_FEED ∧ s1.bufindex = 0 ∧ s1.duration_count = 0 ∧ s1.feed_time = 10 :=
  ⟨rfl, (feed_item_ten_traversals sampleHeader initialState rfl).2.2.2⟩

/-- C3: for each of the phases SYNC_CONTROLLER, BUY_ITEM and AFTER_FEED, from the
entry state of the phase, running `sum of durations + number of steps` ticks
(822, 4298 and 1228) leaves `bufindex = 0`, `duration_count = 0` and the phase
equal to the successor (BUY_ITEM, FEED_ITEM, BUY_ITEM), and after every smaller
number of ticks the phase is unchanged, so the phase changes once, on the last
tick. -/
theorem non_feed_traversal (h : JoystickH) (s : State) :
    ((sync_controller.map fun c => c.duration).sum + sync_controller.length = 822 ∧
      (∃ s1, runTicks h 822 (enterPhase .SYNC_CONTROLLER s) = some s1 ∧
        s1.state = .BUY_ITEM ∧ s1.bufindex = 0 ∧ s1.duration_count = 0) ∧
      ∀ n : Nat, n < 822 → ∃ s1, runTicks h n (enterPhase .SYNC_CONTROLLER s) = some s1 ∧
        s1.state = .SYNC_CONTROLLER) ∧
    ((buy_item.map fun c => c.duration).sum + buy_item.length = 4298 ∧
      (∃ s1, runTicks h 4298 (enterPhase .BUY_ITEM s) = some s1 ∧
        s1.state = .FEED_ITEM ∧ s1.bufindex = 0 ∧ s1.duration_count = 0) ∧
      ∀ n : Nat, n < 4298 → ∃ s1, runTicks h n (enterPhase .BUY_ITEM s) = some s1 ∧
        s1.state = .BUY_ITEM) ∧
    ((after_feed.map fun c => c.duration).sum + after_feed.length = 1228 ∧
      (∃ s1, runTicks h 1228 (enterPhase .AFTER_FEED s) = some s1 ∧
        s1.state = .BUY_ITEM ∧ s1.bufindex = 0 ∧ s1.duration_count = 0) ∧
      ∀ n : Nat, n < 1228 → ∃ s1, runTicks h n (enterPhase .AFTER_FEED s) = some s1 ∧
        s1.state = .AFTER_FEED) := by
  refine ⟨⟨by decide, ⟨_, run_sync_controller h s, rfl, rfl, rfl⟩, ?_⟩,
    ⟨by decide, ⟨_, run_buy_item h s, rfl, rfl, rfl⟩, ?_⟩,
    ⟨by decide, ⟨_, run_after_feed h s, rfl, rfl, rfl⟩, ?_⟩⟩
  · intro n hn
    obtain ⟨i, dc, c, _, _, _, hrun⟩ := run_enter_within h .SYNC_CONTROLLER s n
      (by rw [show scriptTicks (script .SYNC_CONTROLLER) = 822 from scriptTicks_values.1]
          exact hn)
    exact ⟨_, hrun, rfl⟩
  · intro n hn
    obtain ⟨i, dc, c, _, _, _, hrun⟩ := run_enter_within h .BUY_ITEM s n
      (by rw [show scriptTicks (script .BUY_ITEM) = 4298 from scriptTicks_values.2.1]
          exact hn)
    exact ⟨_, hrun, rfl⟩
  · intro n hn
    obtain ⟨i, dc, c, _, _, _, hrun⟩ := run_enter_within h .AFTER_FEED s n
      (by rw [show scriptTicks (script .AFTER_FEED) = 1228 from scriptTicks_values.2.2.2]
          exact hn)
    exact ⟨_, hrun, rfl⟩

/-- Witness for C3: 821 ticks after power-up the phase is still SYNC_CONTROLLER. -/
theorem non_feed_traversal_witness :
    821 < 822 ∧
    ∃ s1, runTicks sampleHeader 821 (enterPhase .SYNC_CONTROLLER initialState) = some s1 ∧
      s1.state = .SYNC_CONTROLLER :=
  ⟨by decide, (non_feed_traversal sampleHeader initialState).1.2.2 821 (by decide)⟩

/-! ## Step timing -/

/-- C4: in every phase a step of duration `d` is held for `d + 1` ticks. From
an in-range state one tick leaves the step index where it is, moves it to the
next index inside the script, or wraps it to 0 from the last step; and from
`duration_count = 0` at step `i`, after `k` ticks (`k = 0 .. d`) the state is
unchanged but for `duration_count = k`, and after `d + 1` ticks
`duration_count` is 0 again and the step index is `i + 1`, or 0 when `i` was
the last step. -/
theorem step_held_duration_plus_one (h : JoystickH) (s : State) (hs : InRange s) :
    (∃ r s1, GetNextReport h s = some (r, s1) ∧
      (s1.bufindex = s.bufindex ∨
       (s1.bufindex = s.bufindex + 1 ∧ s1.bufindex < ((script s.state).length : Int)) ∨
       (s1.bufindex = 0 ∧ s.bufindex + 1 = ((script s.state).length : Int)))) ∧
    (s.duration_count = 0 →
      ∃ c, readTable (script s.state) s.bufindex = some c ∧
        (∀ k : Nat, k ≤ c.duration →
          runTicks h k s = some { s with duration_count := (k : Int) }) ∧
        ∃ s1, runTicks h (c.duration + 1) s = some s1 ∧ s1.duration_count = 0 ∧
          s1.bufindex =
            if s.bufindex + 1 < ((script s.state).length : Int) then s.bufindex + 1 else 0) := by
  constructor
  · obtain ⟨r, s1, hr, hcase⟩ := tick_cases h s hs
    refine ⟨r, s1, hr, ?_⟩
    rcases hcase with ⟨_, hb, _⟩ | ⟨_, hb, _, hlt, _⟩ | ⟨hlast, hfin⟩
    · exact Or.inl hb
    · exact Or.inr (Or.inl ⟨hb, hlt⟩)
    · exact Or.inr (Or.inr ⟨by rw [hfin]; exact finishPhase_bufindex _, hlast⟩)
  · intro hd
    obtain ⟨c, hc⟩ := readTable_of_inRange s hs
    refine ⟨c, hc, fun k hk => run_hold h s c hc hd k hk, _, run_step h s c hc hd, ?_, ?_⟩
    · split
      · rfl
      · rw [finishPhase_duration_count]
    · split
      · rfl
      · exact finishPhase_bufindex _

/-- Witness for C4 at the power-up state (step 0 of `sync_controller`). -/
theorem step_held_duration_plus_one_witness :
    InRange initialState ∧
    ∃ r s1, GetNextReport sampleHeader initialState = some (r, s1) ∧
      (s1.bufindex = initialState.bufindex ∨
       (s1.bufindex = initialState.bufindex + 1 ∧
          s1.bufindex < ((script initialState.state).length : Int)) ∨
       (s1.bufindex = 0 ∧
          initialState.bufindex + 1 = ((script initialState.state).length : Int))) :=
  ⟨by decide, (step_held_duration_plus_one sampleHeader initialState (by decide)).1⟩

/-- C5 as stated fails: 251 ticks after power-up the automaton is at step 1 of
`sync_controller` with `duration_count = 0`, and the durations of the steps
before step 1 sum to 250, not 251. -/
theorem ticks_not_sum_of_durations :
    ∃ s1, runTicks sampleHeader 251 initialState = some s1 ∧
      s1.state = .SYNC_CONTROLLER ∧ s1.bufindex = 1 ∧ s1.duration_count = 0 ∧
      ((251 : Nat) : Int) ≠
        (durationsBefore (script s1.state) s1.bufindex.toNat : Nat) + s1.duration_count := by
  have hstep := run_step sampleHeader initialState ⟨.NOTHING, 250⟩ (by decide) rfl
  rw [if_pos (by decide)] at hstep
  exact ⟨_, hstep, rfl, rfl, rfl, by decide⟩

/-- C5, amended: `n` ticks after a phase was entered (for FEED_ITEM: after a
traversal began), with `n` less than the ticks of one traversal, the automaton
is in that phase at an in-range step, and `n` equals the sum of the durations
of the steps before the step index, plus the step index (each completed step
took one tick more than its duration), plus `duration_count`. -/
theorem ticks_since_phase_entry (h : JoystickH) (p : State_t) (s : State) (n : Nat)
    (hn : n < scriptTicks (script p)) :
    ∃ s1, runTicks h n (enterPhase p s) = some s1 ∧ s1.state = p ∧ InRange s1 ∧
      0 ≤ s1.duration_count ∧
      (n : Int) = (durationsBefore (script p) s1.bufindex.toNat : Nat) + s1.bufindex +
        s1.duration_count := by
  obtain ⟨i, dc, c, hc, _, hsum, hrun⟩ := run_enter_within h p s n hn
  have hi : i < (script p).length := (List.getElem?_eq_some.mp hc).1
  have hd := durations_add_index (script p) i (Nat.le_of_lt hi)
  refine ⟨_, hrun, rfl, ⟨by simp, by simp only [enterPhase]; omega⟩, by simp, ?_⟩
  simp only [Int.toNat_ofNat]
  omega

/-- Witness for C5 (amended): 251 ticks after power-up. -/
theorem ticks_since_phase_entry_witness :
    251 < scriptTicks (script .SYNC_CONTROLLER) ∧
    ∃ s1, runTicks sampleHeader 251 (enterPhase .SYNC_CONTROLLER initialState) = some s1 ∧
      s1.state = .SYNC_CONTROLLER ∧ InRange s1 ∧ 0 ≤ s1.duration_count ∧
      ((251 : Nat) : Int) =
        (durationsBefore (script .SYNC_CONTROLLER) s1.bufindex.toNat : Nat) + s1.bufindex +
          s1.duration_count :=
  ⟨by decide, ticks_since_phase_entry sampleHeader .SYNC_CONTROLLER initialState 251
    (by decide)⟩

/-! ## Report mapping -/

/-- C6: on every tick of the run from the power-up state, the report written by
`GetNextReport` is the all-neutral report modified by the spec mapper for the
symbol of the step `script[phase][bufindex]` read before the tick: TRIGGERS
gives `Button = SWITCH_L | SWITCH_R`, A, B and PLUS give their button bit, LEFT
gives `HAT = HAT_LEFT`, NOTHING gives the neutral report. -/
theorem reports_follow_spec_mapper (h : JoystickH) (n : Nat) :
    ∃ s c r s1, runTicks h n initialState = some s ∧
      readTable (script s.state) s.bufindex = some c ∧
      GetNextReport h s = some (r, s1) ∧
      r = specMapper h c.button (specNeutral h) ∧
      (c.button = .TRIGGERS → r = { specNeutral h with Button := h.SWITCH_L ||| h.SWITCH_R }) ∧
      (c.button = .A → r = { specNeutral h with Button := h.SWITCH_A }) ∧
      (c.button = .B → r = { specNeutral h with Button := h.SWITCH_B }) ∧
      (c.button = .PLUS → r = { specNeutral h with Button := h.SWITCH_PLUS }) ∧
      (c.button = .LEFT → r = { specNeutral h with HAT := h.HAT_LEFT }) ∧
      (c.button = .NOTHING → r = specNeutral h) := by
  obtain ⟨s, hrun, hs⟩ := runTicks_inRange h n initialState (by decide)
  obtain ⟨c, r, s1, hc, hr, hrep⟩ := report_of_inRange h s hs
  refine ⟨s, c, r, s1, hrun, hc, hr, hrep, ?_, ?_, ?_, ?_, ?_, ?_⟩ <;>
    (intro hb; rw [hrep, hb]; simp [specMapper, specNeutral])

/-- C8 as stated fails: the tick after the first 6040 of the run from power-up
is the last tick of the first traversal of `feed_item` (step 5,
`duration_count = 300`, `feed_time = 10`); on it the step index runs past the
script and is reset to 0, and no pulse is emitted: `portsval` and both ports
keep their values. -/
theorem feed_wrap_without_pulse :
    ∃ s r s1, runTicks sampleHeader 6040 initialState = some s ∧
      completesScript s ∧ GetNextReport sampleHeader s = some (r, s1) ∧
      s.state = .FEED_ITEM ∧ s.bufindex = 5 ∧
      s1.state = .FEED_ITEM ∧ s1.bufindex = 0 ∧ s1.feed_time = 9 ∧
      s1.portsval = s.portsval ∧ s1.PORTD = s.PORTD ∧ s1.PORTB = s.PORTB ∧
      ¬ pulsed s s1 :=
  ⟨lastTickOfFirstFeed, _, _, reach_lastTickOfFirstFeed sampleHeader,
    ⟨⟨.NOTHING, 300⟩, by decide, by decide, by decide⟩,
    rfl, rfl, rfl, rfl, rfl, rfl, rfl, rfl, rfl, not_pulsed_of_portsval _ _ rfl⟩

/-- C8, amended: from every in-range state, the tick emits a pulse exactly when
it changes the phase, that is, exactly when the step index runs past the last
step of the script and, in phase FEED_ITEM, `feed_time` drops below 1 on that
tick (the last of the ten traversals); on every other tick, the earlier wraps
of `feed_item` included, `portsval` and both ports keep their values. -/
theorem pulse_iff_phase_change (h : JoystickH) (s : State) (hs : InRange s) :
    ∃ r s1, GetNextReport h s = some (r, s1) ∧
      (pulsed s s1 ↔ s1.state ≠ s.state) ∧
      (pulsed s s1 ↔
        completesScript s ∧ (s.state = .FEED_ITEM → s.feed_time - 1 < 1)) ∧
      (¬ pulsed s s1 →
        s1.portsval = s.portsval ∧ s1.PORTD = s.PORTD ∧ s1.PORTB = s.PORTB) := by
  obtain ⟨c, hc⟩ := readTable_of_inRange s hs
  refine ⟨_, _, GetNextReport_eq h s c hc, ?_⟩
  have hcomp : completesScript s ↔
      (toUnsigned (s.duration_count + 1) > (c.duration : Int) ∧
        s.bufindex + 1 > ((script s.state).length : Int) - 1) := by
    constructor
    · rintro ⟨c1, hc1, hgt, hl⟩
      rw [hc] at hc1
      cases hc1
      exact ⟨hgt, hl⟩
    · rintro ⟨hgt, hl⟩
      exact ⟨c, hc, hgt, hl⟩
  have hr := hs.2
  simp only [advanceStep]
  by_cases hgt : toUnsigned (s.duration_count + 1) > (c.duration : Int)
  · rw [if_pos hgt]
    by_cases hl : s.bufindex + 1 > ((script s.state).length : Int) - 1
    · rw [if_pos hl]
      by_cases hcond : s.state ≠ .FEED_ITEM ∨ s.feed_time - 1 < 1
      · obtain ⟨hpul, hne⟩ := finishPhase_pulse s (s.bufindex + 1) 0 hcond
        refine ⟨⟨fun _ => hne, fun _ => hpul⟩, ⟨fun _ => ⟨hcomp.mpr ⟨hgt, hl⟩, ?_⟩,
          fun _ => hpul⟩, fun hn => absurd hpul hn⟩
        intro hfeed
        rcases hcond with hne1 | hlt
        · exact absurd hfeed hne1
        · exact hlt
      · have hfeed : s.state = .FEED_ITEM := by
          by_contra hne1
          exact hcond (Or.inl hne1)
        have hft : ¬ s.feed_time - 1 < 1 := fun hlt => hcond (Or.inr hlt)
        obtain ⟨h1, h2, h3, h4⟩ := finishPhase_quiet s (s.bufindex + 1) 0 hfeed hft
        have hnp := not_pulsed_of_portsval s _ h1
        exact ⟨⟨fun hp => absurd hp hnp, fun hne => absurd h4 hne⟩,
          ⟨fun hp => absurd hp hnp, fun hcs => absurd (hcs.2 hfeed) hft⟩,
          fun _ => ⟨h1, h2, h3⟩⟩
    · rw [if_neg hl]
      have hnp := not_pulsed_of_portsval s
        { s with bufindex := s.bufindex + 1, duration_count := 0 } rfl
      exact ⟨⟨fun hp => absurd hp hnp, fun hne => absurd rfl hne⟩,
        ⟨fun hp => absurd hp hnp, fun hcs => absurd (hcomp.mp hcs.1).2 hl⟩,
        fun _ => ⟨rfl, rfl, rfl⟩⟩
  · rw [if_neg hgt, if_neg (by simp only; omega)]
    have hnp := not_pulsed_of_portsval s
      { s with duration_count := s.duration_count + 1 } rfl
    exact ⟨⟨fun hp => absurd hp hnp, fun hne => absurd rfl hne⟩,
      ⟨fun hp => absurd hp hnp, fun hcs => absurd (hcomp.mp hcs.1).1 hgt⟩,
      fun _ => ⟨rfl, rfl, rfl⟩⟩

/-- Witness for C8 (amended) at the power-up state. -/
theorem pulse_iff_phase_change_witness :
    InRange initialState ∧
    ∃ r s1, GetNextReport sampleHeader initialState = some (r, s1) ∧
      (pulsed initialState s1 ↔ s1.state ≠ initialState.state) ∧
      (pulsed initialState s1 ↔
        completesScript initialState ∧
          (initialState.state = .FEED_ITEM → initialState.feed_time - 1 < 1)) ∧
      (¬ pulsed initialState s1 →
        s1.portsval = initialState.portsval ∧ s1.PORTD = initialState.PORTD ∧
          s1.PORTB = initialState.PORTB) :=
  ⟨by decide, pulse_iff_phase_change sampleHeader initialState (by decide)⟩

/-! ## Scenarios -/

/-- C9: in the run from power-up, the reports of ticks 1 to 251 have neutral
sticks, neutral hat and `Button = 0`, and the report of tick 256 is written at
the TRIGGERS step (step 1 of `sync_controller`) and has the `SWITCH_L` and the
`SWITCH_R` bits set. -/
theorem sync_opening_reports (h : JoystickH) :
    (∀ k : Nat, 1 ≤ k → k ≤ 251 →
      reportOfTick h k initialState =
        some { Button := 0, HAT := h.HAT_CENTER, LX := h.STICK_CENTER, LY := h.STICK_CENTER,
               RX := h.STICK_CENTER, RY := h.STICK_CENTER }) ∧
    (∃ s, runTicks h 255 initialState = some s ∧ s.state = .SYNC_CONTROLLER ∧
      readTable sync_controller s.bufindex = some ⟨.TRIGGERS, 5⟩) ∧
    (∃ r, reportOfTick h 256 initialState = some r ∧
      r.Button = h.SWITCH_L ||| h.SWITCH_R ∧
      r.Button &&& h.SWITCH_L = h.SWITCH_L ∧ r.Button &&& h.SWITCH_R = h.SWITCH_R) := by
  have hc0 : readTable (script initialState.state) initialState.bufindex =
      some ⟨.NOTHING, 250⟩ := by decide
  have h251 := run_step h initialState ⟨.NOTHING, 250⟩ hc0 rfl
  rw [if_pos (by decide)] at h251
  have hc1 : readTable (script .SYNC_CONTROLLER) (1 : Int) = some ⟨.TRIGGERS, 5⟩ := by decide
  have h4 := run_hold h
    { initialState with bufindex := initialState.bufindex + 1, duration_count := 0 }
    ⟨.TRIGGERS, 5⟩ hc1 rfl 4 (by decide)
  have h255 := runTicks_add h 251 4 initialState
  rw [h251, Option.some_bind, h4] at h255
  refine ⟨?_, ⟨_, h255, rfl, hc1⟩, ?_⟩
  · intro k hk1 hk2
    have hrun := run_hold h initialState ⟨.NOTHING, 250⟩ hc0 rfl (k - 1) (by
      show k - 1 ≤ 250
      omega)
    have hg := GetNextReport_eq h
      { initialState with duration_count := ((k - 1 : Nat) : Int) } ⟨.NOTHING, 250⟩ hc0
    simp only [reportOfTick, hrun, hg]
    rfl
  · have hg := GetNextReport_eq h
      { initialState with bufindex := initialState.bufindex + 1,
                          duration_count := ((4 : Nat) : Int) } ⟨.TRIGGERS, 5⟩ hc1
    refine ⟨phaseSwitch h .SYNC_CONTROLLER .TRIGGERS (emptyReport h), ?_, ?_⟩
    · simp only [reportOfTick]
      rw [show 256 - 1 = 251 + 4 from rfl, h255]
      simp only [hg]
      rfl
    · simp only [phaseSwitch, switch_sync_controller, emptyReport, Nat.zero_or]
      exact ⟨trivial, lor_land_left _ _, lor_land_right _ _⟩

/-- Witness for C9: tick 251 of the run from power-up. -/
theorem sync_opening_reports_witness :
    1 ≤ 251 ∧ 251 ≤ 251 ∧
    reportOfTick sampleHeader 251 initialState =
      some { Button := 0, HAT := sampleHeader.HAT_CENTER, LX := sampleHeader.STICK_CENTER,
             LY := sampleHeader.STICK_CENTER, RX := sampleHeader.STICK_CENTER,
             RY := sampleHeader.STICK_CENTER } :=
  ⟨by decide, by decide, (sync_opening_reports sampleHeader).1 251 (by decide) (by decide)⟩

/-- C10: replaying `buy_item` from the entry state of BUY_ITEM. The script is
14 action and pause pairs (actions A, A, A, A, A, LEFT, A, B, B, PLUS, A, A,
LEFT, A of duration 5, each followed by NOTHING of duration 300, 28 steps); the
next 4298 reports are, for the steps in order, `duration + 1` copies of the
report of the symbol of the step; the phase is still BUY_ITEM after every
number of ticks below 4298 and is FEED_ITEM with `bufindex = 0` after 4298. -/
theorem buy_item_replay (h : JoystickH) (s : State) :
    buy_item = actionPausePairs
      [.A, .A, .A, .A, .A, .LEFT, .A, .B, .B, .PLUS, .A, .A, .LEFT, .A] ∧
    buy_item.length = 28 ∧
    reportsOf h 4298 (enterPhase .BUY_ITEM s) =
      some (expandScript (fun b => specMapper h b (specNeutral h)) buy_item) ∧
    (expandScript (fun b => specMapper h b (specNeutral h)) buy_item).length = 4298 ∧
    (∀ n : Nat, n < 4298 →
      ∃ s1, runTicks h n (enterPhase .BUY_ITEM s) = some s1 ∧ s1.state = .BUY_ITEM) ∧
    (∃ s1, runTicks h 4298 (enterPhase .BUY_ITEM s) = some s1 ∧ s1.state = .FEED_ITEM ∧
      s1.bufindex = 0) := by
  refine ⟨by decide, by decide, ?_, ?_, ?_, ⟨_, run_buy_item h s, rfl, rfl⟩⟩
  · have hrep := traversal_reports h buy_item 0 (enterPhase .BUY_ITEM s) rfl rfl rfl
    rw [show scriptTicks buy_item = 4298 from scriptTicks_values.2.1] at hrep
    rw [hrep]
    refine congrArg some ?_
    apply expandScript_congr
    intro c hc
    exact switch_on_label h .BUY_ITEM c.button (labels_cover .BUY_ITEM c hc)
  · rw [expandScript_length]
    exact scriptTicks_values.2.1
  · intro n hn
    obtain ⟨i, dc, c, _, _, _, hrun⟩ := run_enter_within h .BUY_ITEM s n
      (by rw [show scriptTicks (script .BUY_ITEM) = 4298 from scriptTicks_values.2.1]
          exact hn)
    exact ⟨_, hrun, rfl⟩

/-- Witness for C10: 4297 ticks into the replay the phase is still BUY_ITEM. -/
theorem buy_item_replay_witness :
    4297 < 4298 ∧
    ∃ s1, runTicks sampleHeader 4297 (enterPhase .BUY_ITEM initialState) = some s1 ∧
      s1.state = .BUY_ITEM :=
  ⟨by decide, (buy_item_replay sampleHeader initialState).2.2.2.2.1 4297 (by decide)⟩

/-! ## Script tables -/

/-- C11 as stated fails: the durations of `buy_item` do not sum to
9 * 5 + 19 * 300 = 5745, and the script does not have nine steps of duration 5
and nineteen of duration 300. -/
theorem buy_item_durations_not_5745 :
    9 * 5 + 19 * 300 = 5745 ∧
    (buy_item.map fun c => c.duration).sum ≠ 9 * 5 + 19 * 300 ∧
    stepsOfDuration buy_item 5 ≠ 9 ∧ stepsOfDuration buy_item 300 ≠ 19 := by
  decide

/-- C11, amended: `buy_item` has 28 steps, fourteen of duration 5 and fourteen
of duration 300, and the sum of their durations is 14 * 5 + 14 * 300 = 4270. -/
theorem buy_item_durations :
    buy_item.length = 28 ∧
    stepsOfDuration buy_item 5 = 14 ∧ stepsOfDuration buy_item 300 = 14 ∧
    (buy_item.map fun c => c.duration).sum = 14 * 5 + 14 * 300 ∧
    (buy_item.map fun c => c.duration).sum = 4270 := by
  decide

/-- C12: the script tables are the literal scripts of the spec.
`sync_controller` is NOTHING 250, TRIGGERS 5, NOTHING 150, TRIGGERS 5,
NOTHING 150, A 5, NOTHING 250; `feed_item` is the pair A 5, NOTHING 300 three
times (6 steps); `after_feed` is the pair B 5, NOTHING 300 four times
(8 steps); every script is non-empty and every step has a duration of at
least 1. -/
theorem scripts_match_spec :
    sync_controller =
      [⟨.NOTHING, 250⟩, ⟨.TRIGGERS, 5⟩, ⟨.NOTHING, 150⟩, ⟨.TRIGGERS, 5⟩, ⟨.NOTHING, 150⟩,
       ⟨.A, 5⟩, ⟨.NOTHING, 250⟩] ∧
    feed_item = repeated 3 [⟨.A, 5⟩, ⟨.NOTHING, 300⟩] ∧ feed_item.length = 6 ∧
    after_feed = repeated 4 [⟨.B, 5⟩, ⟨.NOTHING, 300⟩] ∧ after_feed.length = 8 ∧
    (∀ p : State_t, script p ≠ [] ∧ ∀ c ∈ script p, 1 ≤ c.duration) := by
  refine ⟨rfl, by decide, rfl, by decide, rfl, ?_⟩
  intro p
  cases p <;> decide

/-- C13: in every phase, when the symbol of the current step is NOTHING, the
report of the tick has all four stick axes at `STICK_CENTER`, the hat at
`HAT_CENTER` and `Button = 0`; the `NOTHING` case of the `switch` of every
phase leaves the fresh report as it is. -/
theorem nothing_gives_neutral_report (h : JoystickH) (s : State) (c : command)
    (hc : readTable (script s.state) s.bufindex = some c) (hb : c.button = .NOTHING) :
    (∃ r s1, GetNextReport h s = some (r, s1) ∧
      r.LX = h.STICK_CENTER ∧ r.LY = h.STICK_CENTER ∧ r.RX = h.STICK_CENTER ∧
      r.RY = h.STICK_CENTER ∧ r.HAT = h.HAT_CENTER ∧ r.Button = 0) ∧
    (∀ p : State_t, phaseSwitch h p .NOTHING (emptyReport h) = emptyReport h) := by
  refine ⟨⟨_, _, GetNextReport_eq h s c hc, ?_⟩, ?_⟩
  · rw [hb]
    cases s.state <;> exact ⟨rfl, rfl, rfl, rfl, rfl, rfl⟩
  · intro p
    cases p <;> rfl

/-- Witness for C13: the power-up state, whose step is NOTHING 250. -/
theorem nothing_gives_neutral_report_witness :
    readTable (script initialState.state) initialState.bufindex = some ⟨.NOTHING, 250⟩ ∧
    (⟨.NOTHING, 250⟩ : command).button = .NOTHING ∧
    ∃ r s1, GetNextReport sampleHeader initialState = some (r, s1) ∧
      r.LX = sampleHeader.STICK_CENTER ∧ r.LY = sampleHeader.STICK_CENTER ∧
      r.RX = sampleHeader.STICK_CENTER ∧ r.RY = sampleHeader.STICK_CENTER ∧
      r.HAT = sampleHeader.HAT_CENTER ∧ r.Button = 0 :=
  ⟨by decide, rfl,
    (nothing_gives_neutral_report sampleHeader initialState ⟨.NOTHING, 250⟩ (by decide) rfl).1⟩

/-! ## Safety of the run -/

/-- C14: every state reached from the power-up state, after any number of
ticks, has `0 <= bufindex < length of the script of its phase`,
`0 <= duration_count <= duration of the step at bufindex` and
`1 <= feed_time <= 10`; the table read of the next tick is in bounds and the
next tick returns. -/
theorem reachable_state_bounds (h : JoystickH) (n : Nat) :
    ∃ s c, runTicks h n initialState = some s ∧
      0 ≤ s.bufindex ∧ s.bufindex < ((script s.state).length : Int) ∧
      readTable (script s.state) s.bufindex = some c ∧
      0 ≤ s.duration_count ∧ s.duration_count ≤ (c.duration : Int) ∧
      1 ≤ s.feed_time ∧ s.feed_time ≤ 10 ∧
      ∃ r s1, GetNextReport h s = some (r, s1) := by
  obtain ⟨s, hrun, hs⟩ := wellFormed_run h n initialState wellFormed_initialState
  obtain ⟨r, s1, hr, _⟩ := wellFormed_tick h s hs
  obtain ⟨c, hc, h0, h1, hf1, hf2⟩ := hs
  have hin := inRange_of_readTable s c hc
  exact ⟨s, c, hrun, hin.1, hin.2, hc, h0, h1, hf1, hf2, r, s1, hr⟩

/-! ## The indicator does not feed back -/

/-- C15: for two states with the same phase, step index, tick counter and
`feed_time` (they may differ in `portsval`, and in what the ports hold), one
tick either fails on both or returns on both with the same report and the same
next phase, step index, tick counter and `feed_time`. -/
theorem portsval_has_no_effect (h : JoystickH) (s t : State)
    (hp : s.state = t.state) (hb : s.bufindex = t.bufindex)
    (hd : s.duration_count = t.duration_count) (hf : s.feed_time = t.feed_time) :
    (GetNextReport h s = none ∧ GetNextReport h t = none) ∨
    ∃ r s1 t1, GetNextReport h s = some (r, s1) ∧ GetNextReport h t = some (r, t1) ∧
      s1.state = t1.state ∧ s1.bufindex = t1.bufindex ∧
      s1.duration_count = t1.duration_count ∧ s1.feed_time = t1.feed_time := by
  have hst : sequencerTuple s = sequencerTuple t := by
    simp only [sequencerTuple, hp, hb, hd, hf]
  have htick := tick_congr h s t hst
  cases hs : GetNextReport h s with
  | none =>
    cases ht : GetNextReport h t with
    | none => exact Or.inl ⟨rfl, rfl⟩
    | some q => simp [hs, ht] at htick
  | some p =>
    cases ht : GetNextReport h t with
    | none => simp [hs, ht] at htick
    | some q =>
      simp only [hs, ht, Option.map_some', Option.some.injEq, Prod.mk.injEq,
        sequencerTuple] at htick
      obtain ⟨hr, h1, h2, h3, h4⟩ := htick
      refine Or.inr ⟨p.1, p.2, q.2, rfl, ?_, h1, h2, h3, h4⟩
      rw [hr]

/-- Witness for C15: the power-up state and the same state with the indicator
toggled; the tick returns on both. -/
theorem portsval_has_no_effect_witness :
    initialState.state = (togglePorts initialState).state ∧
    initialState.bufindex = (togglePorts initialState).bufindex ∧
    initialState.duration_count = (togglePorts initialState).duration_count ∧
    initialState.feed_time = (togglePorts initialState).feed_time ∧
    initialState.portsval ≠ (togglePorts initialState).portsval ∧
    ((GetNextReport sampleHeader initialState = none ∧
        GetNextReport sampleHeader (togglePorts initialState) = none) ∨
      ∃ r s1 t1, GetNextReport sampleHeader initialState = some (r, s1) ∧
        GetNextReport sampleHeader (togglePorts initialState) = some (r, t1) ∧
        s1.state = t1.state ∧ s1.bufindex = t1.bufindex ∧
        s1.duration_count = t1.duration_count ∧ s1.feed_time = t1.feed_time) :=
  ⟨rfl, rfl, rfl, rfl, by decide,
    portsval_has_no_effect sampleHeader initialState (togglePorts initialState)
      rfl rfl rfl rfl⟩

/-! ## Shape of every report -/

/-- C16: from every state with an in-range step index, the report of the tick
has all four stick axes at `STICK_CENTER`, the hat at `HAT_CENTER` or
`HAT_LEFT`, and `Button` one of 0, `SWITCH_A`, `SWITCH_B`, `SWITCH_PLUS`,
`SWITCH_L | SWITCH_R`; the hat is `HAT_CENTER` or `Button` is 0, so that (the
two hat constants being different) `HAT = HAT_LEFT` never comes with a non-zero
`Button`; and in every phase the symbols UP, DOWN, RIGHT, X, Y, L and R leave
the neutral report unchanged. -/
theorem report_shape (h : JoystickH) (s : State) (hs : InRange s) :
    (∃ r s1, GetNextReport h s = some (r, s1) ∧
      r.LX = h.STICK_CENTER ∧ r.LY = h.STICK_CENTER ∧ r.RX = h.STICK_CENTER ∧
      r.RY = h.STICK_CENTER ∧
      (r.HAT = h.HAT_CENTER ∨ r.HAT = h.HAT_LEFT) ∧
      (r.Button = 0 ∨ r.Button = h.SWITCH_A ∨ r.Button = h.SWITCH_B ∨
        r.Button = h.SWITCH_PLUS ∨ r.Button = h.SWITCH_L ||| h.SWITCH_R) ∧
      (r.HAT = h.HAT_CENTER ∨ r.Button = 0) ∧
      (h.HAT_LEFT ≠ h.HAT_CENTER → r.HAT = h.HAT_LEFT → r.Button = 0)) ∧
    (∀ (p : State_t) (b : Buttons_t), b ∈ [.UP, .DOWN, .RIGHT, .X, .Y, .L, .R] →
      phaseSwitch h p b (emptyReport h) =
        { Button := 0, HAT := h.HAT_CENTER, LX := h.STICK_CENTER, LY := h.STICK_CENTER,
          RX := h.STICK_CENTER, RY := h.STICK_CENTER }) := by
  constructor
  · obtain ⟨c, hc⟩ := readTable_of_inRange s hs
    obtain ⟨h1, h2, h3, h4, h5, h6⟩ := switch_shape h s.state c.button
    refine ⟨_, _, GetNextReport_eq h s c hc, h1, h2, h3, h4, ?_, h6, ?_, ?_⟩
    · rcases h5 with hcen | ⟨hleft, _⟩
      · exact Or.inl hcen
      · exact Or.inr hleft
    · rcases h5 with hcen | ⟨_, hzero⟩
      · exact Or.inl hcen
      · exact Or.inr hzero
    · intro hne hleft
      rcases h5 with hcen | ⟨_, hzero⟩
      · rw [hleft] at hcen
        exact absurd hcen hne
      · exact hzero
  · intro p b hb
    cases p <;> cases b <;> simp at hb <;> rfl

/-- Witness for C16 at the power-up state. -/
theorem report_shape_witness :
    InRange initialState ∧
    ∃ r s1, GetNextReport sampleHeader initialState = some (r, s1) ∧
      r.LX = sampleHeader.STICK_CENTER ∧ r.LY = sampleHeader.STICK_CENTER ∧
      r.RX = sampleHeader.STICK_CENTER ∧ r.RY = sampleHeader.STICK_CENTER ∧
      (r.HAT = sampleHeader.HAT_CENTER ∨ r.HAT = sampleHeader.HAT_LEFT) ∧
      (r.Button = 0 ∨ r.Button = sampleHeader.SWITCH_A ∨ r.Button = sampleHeader.SWITCH_B ∨
        r.Button = sampleHeader.SWITCH_PLUS ∨
        r.Button = sampleHeader.SWITCH_L ||| sampleHeader.SWITCH_R) ∧
      (r.HAT = sampleHeader.HAT_CENTER ∨ r.Button = 0) ∧
      (sampleHeader.HAT_LEFT ≠ sampleHeader.HAT_CENTER →
        r.HAT = sampleHeader.HAT_LEFT → r.Button = 0) :=
  ⟨by decide, (report_shape sampleHeader initialState (by decide)).1⟩

/-! ## Frame of a counting tick -/

/-- C17: in the run from power-up the phase after `n` ticks is SYNC_CONTROLLER
exactly when `n < 822`; the state after `822 + 14736 * k` ticks is BUY_ITEM with
`bufindex = 0`, `duration_count = 0`, `feed_time = 10`
(14736 = 4298 + 9210 + 1228); for every `n >= 822` the phase, step index, tick
counter and `feed_time` after `n + 14736` ticks are those after `n` ticks; and
for every `n > 822` the report of tick `n + 14736` is the report of tick `n`. -/
theorem periodic_after_sync (h : JoystickH) :
    14736 = 4298 + 9210 + 1228 ∧
    (∀ n : Nat, ∃ s, runTicks h n initialState = some s ∧
      (s.state = .SYNC_CONTROLLER ↔ n < 822)) ∧
    (∀ k : Nat, ∃ s, runTicks h (822 + 14736 * k) initialState = some s ∧
      s.state = .BUY_ITEM ∧ s.bufindex = 0 ∧ s.duration_count = 0 ∧ s.feed_time = 10) ∧
    (∀ n : Nat, 822 ≤ n → ∃ s t, runTicks h n initialState = some s ∧
      runTicks h (n + 14736) initialState = some t ∧
      t.state = s.state ∧ t.bufindex = s.bufindex ∧
      t.duration_count = s.duration_count ∧ t.feed_time = s.feed_time) ∧
    (∀ n : Nat, 822 < n → ∃ r, reportOfTick h n initialState = some r ∧
      reportOfTick h (n + 14736) initialState = some r) := by
  refine ⟨rfl, ?_, ?_, ?_, ?_⟩
  · intro n
    rcases Nat.lt_or_ge n 822 with hlt | hge
    · obtain ⟨i, dc, c, _, _, _, hrun⟩ := run_enter_within h .SYNC_CONTROLLER initialState n
        (by rw [show scriptTicks (script .SYNC_CONTROLLER) = 822 from scriptTicks_values.1]
            exact hlt)
      exact ⟨_, hrun, fun _ => hlt, fun _ => rfl⟩
    · obtain ⟨s, t, hs, _, _, _, _, hne⟩ := run_period h n hge
      exact ⟨s, hs, fun hsync => absurd hsync hne, fun hlt => absurd hlt (by omega)⟩
  · intro k
    obtain ⟨s1, hrun, hft⟩ := run_to_buy_entry h k
    exact ⟨_, hrun, rfl, rfl, rfl, hft⟩
  · intro n hn
    obtain ⟨s, t, hs, ht, htuple, _⟩ := run_period h n hn
    simp only [sequencerTuple, Prod.mk.injEq] at htuple
    exact ⟨s, t, hs, ht, htuple.1, htuple.2.1, htuple.2.2.1, htuple.2.2.2⟩
  · intro n hn
    obtain ⟨s, t, hs, ht, htuple, hsr, htr, _⟩ := run_period h (n - 1) (by omega)
    obtain ⟨r, s1, hr, _⟩ := tick_cases h s hsr
    obtain ⟨r1, t1, hr1, _⟩ := tick_cases h t htr
    have hcongr := tick_congr h t s htuple
    rw [hr, hr1] at hcongr
    simp only [Option.map_some', Option.some.injEq, Prod.mk.injEq] at hcongr
    rw [hcongr.1] at hr1
    have e1 := reportOfTick_succ h (n - 1) initialState s r s1 hs hr
    have e2 := reportOfTick_succ h (n - 1 + 14736) initialState t r t1 ht hr1
    rw [show n - 1 + 1 = n by omega] at e1
    rw [show n - 1 + 14736 + 1 = n + 14736 by omega] at e2
    exact ⟨r, e1, e2⟩

/-- Witness for C17: ticks 822 and 823 of the run from power-up. -/
theorem periodic_after_sync_witness :
    822 ≤ 822 ∧ 822 < 823 ∧
    (∃ s t, runTicks sampleHeader 822 initialState = some s ∧
      runTicks sampleHeader (822 + 14736) initialState = some t ∧
      t.state = s.state ∧ t.bufindex = s.bufindex ∧
      t.duration_count = s.duration_count ∧ t.feed_time = s.feed_time) ∧
    ∃ r, reportOfTick sampleHeader 823 initialState = some r ∧
      reportOfTick sampleHeader (823 + 14736) initialState = some r :=
  ⟨by decide, by decide, (periodic_after_sync sampleHeader).2.2.2.1 822 (by decide),
    (periodic_after_sync sampleHeader).2.2.2.2 823 (by decide)⟩

end Joystick
